import Mathlib

/-!
# inkcrop: a verification development

Shallow embedding of `inkcrop.go` (package `main`) and proofs about it.

Conventions of the embedding.

* An `image.Point` is a pair of integers.  An image is represented by the
  `Max` corner of its bounds: every image in the pipeline comes from
  `jpeg.Decode`, `png.Decode` or the `imaging` package, whose bounds start at
  the origin, so `Bounds().Max` is the pixel size.
* A finite `float32` is the rational number it denotes.  Every `float32`
  operation is the exact operation followed by `round32`, rounding to 24
  significant bits, ties to even.  The exponent range is not modelled: for a
  bounding box of between 1 and 65536 pixels a side and for positive sizes of
  an `int` every intermediate value lies between `2 ^ (-63)` and `2 ^ 64`,
  where `float32` neither overflows nor loses precision to subnormals.  The
  Go conversion `int(f)` truncates toward zero.
* A Go `string` is a Lean `String`, that is a valid sequence of Unicode
  characters.  A byte index produced by `strings.LastIndex` for a one-byte
  separator is the position of that separator, so slicing at it cuts the
  sequence at the same place.  The case mapping `unicode.ToLower` is a
  parameter, the `CaseTable`.
* A run-time panic is the value `none`, or the outcome `panicked`.
* The results of the calls into the operating system and the codecs are
  given by an `Env`.
-/

namespace Inkcrop

/-! ## `image.Point`, `float32` and `CalculateDimensions` -/

/-- An `image.Point`. -/
structure Point where
  X : Int
  Y : Int
deriving DecidableEq, Repr

/-- Go conversion `int(f)` of a float: truncation toward zero. -/
def truncToInt (q : ℚ) : Int := Int.tdiv q.num q.den

/-- Rounding of a rational to the nearest integer, ties to the even one. -/
def roundHalfEven (x : ℚ) : Int :=
  if x - ⌊x⌋ < 1 / 2 then ⌊x⌋
  else if 1 / 2 < x - ⌊x⌋ then ⌊x⌋ + 1
  else if ⌊x⌋ % 2 = 0 then ⌊x⌋ else ⌊x⌋ + 1

/-- Rounding of an exact result to `float32`: with `2 ^ e ≤ |q| < 2 ^ (e + 1)`
the result is the multiple of `2 ^ (e - 23)` nearest to `q`, ties to the even
mantissa. -/
def round32 (q : ℚ) : ℚ :=
  if q = 0 then 0
  else (roundHalfEven (q / 2 ^ (Int.log 2 |q| - 23)) : ℚ) * 2 ^ (Int.log 2 |q| - 23)

/-- Source lines 22-39: `CalculateDimensions`, in `float32` arithmetic.  The
embedding is meant for positive sizes: for a zero width or height the code
divides by zero, which the rationals do not model. -/
def CalculateDimensions (currentSize : Point) (maxWidth maxHeight : ℚ) : Point :=
  let sourceWidth : ℚ := round32 currentSize.X
  let sourceHeight : ℚ := round32 currentSize.Y
  let widthRatio := round32 (maxWidth / sourceWidth)
  let heightRatio := round32 (maxHeight / sourceHeight)
  if widthRatio < heightRatio then
    ⟨truncToInt (round32 (sourceWidth * widthRatio)),
     truncToInt (round32 (sourceHeight * widthRatio))⟩
  else
    ⟨truncToInt (round32 (sourceWidth * heightRatio)),
     truncToInt (round32 (sourceHeight * heightRatio))⟩

/-- Source lines 22-39 with the `float32` arithmetic read as exact rational
arithmetic: no operation rounds. -/
def CalculateDimensionsExact (currentSize : Point) (maxWidth maxHeight : ℚ) : Point :=
  let sourceWidth : ℚ := currentSize.X
  let sourceHeight : ℚ := currentSize.Y
  let widthRatio := maxWidth / sourceWidth
  let heightRatio := maxHeight / sourceHeight
  if widthRatio < heightRatio then
    ⟨truncToInt (sourceWidth * widthRatio), truncToInt (sourceHeight * widthRatio)⟩
  else
    ⟨truncToInt (sourceWidth * heightRatio), truncToInt (sourceHeight * heightRatio)⟩

/-! ## Go string operations used by the program -/

/-- Library `unicode.ToLower`, the lower-case mapping of the Unicode tables.
On the ASCII range it maps `A`..`Z` to `a`..`z` and keeps every other
character; beyond that range the table is left open. -/
structure CaseTable where
  lower : Char → Char
  lower_ascii : ∀ c : Char, c.toNat < 128 → lower c = c.toLower

/-- A case table for examples: the ASCII letters are lowered and every other
character is kept.  It agrees with `unicode.ToLower` on ASCII text, the only
text it is applied to. -/
def CaseTable.ascii : CaseTable := ⟨Char.toLower, fun _ _ => rfl⟩

/-- Library `strings.ToLower`: `unicode.ToLower` on every character. -/
def ToLower (U : CaseTable) (s : String) : String := ⟨s.data.map U.lower⟩

/-- Library `strings.Contains(s, sep)` for a one-character `sep`. -/
def Contains (s : String) (sep : Char) : Bool := s.data.contains sep

/-- Scan for `strings.LastIndex`: `i` is the index of the head of the list,
`found` the last index seen so far. -/
def lastIndexFrom (sep : Char) : List Char → Int → Int → Int
  | [], _, found => found
  | c :: cs, i, found => lastIndexFrom sep cs (i + 1) (if c = sep then i else found)

/-- Library `strings.LastIndex(s, sep)` for a one-character `sep`: the index
of the last occurrence, `-1` when there is none. -/
def LastIndex (s : String) (sep : Char) : Int := lastIndexFrom sep s.data 0 (-1)

/-- Go slice expression `s[i:]`; panics (`none`) unless `0 ≤ i ≤ len(s)`. -/
def sliceFrom (s : String) (i : Int) : Option String :=
  if 0 ≤ i ∧ i ≤ s.data.length then some ⟨s.data.drop i.toNat⟩ else none

/-- Go slice expression `s[:i]`; panics (`none`) unless `0 ≤ i ≤ len(s)`. -/
def sliceTo (s : String) (i : Int) : Option String :=
  if 0 ≤ i ∧ i ≤ s.data.length then some ⟨s.data.take i.toNat⟩ else none

/-- Library `strings.TrimSuffix(s, suffix)`. -/
def TrimSuffix (s suffix : String) : String :=
  if suffix.data.isSuffixOf s.data then ⟨s.data.take (s.data.length - suffix.data.length)⟩
  else s

/-- Library `strings.ReplaceAll(s, old, new)` for one-character `old` and `new`. -/
def ReplaceAll (s : String) (old new : Char) : String :=
  ⟨s.data.map (fun c => if c = old then new else c)⟩

/-- The verb `%d` of `fmt.Sprintf` on an `int`. -/
def formatInt (n : Int) : String := toString n

/-! ## `ditherImage` -/

/-- The colours of package `image/color` that the program uses. -/
inductive Color where
  | Gray16 (Y : Nat)
  | Alpha16 (A : Nat)
deriving DecidableEq, Repr

/-- Library value `color.Black`, which is `Gray16{0}`. -/
def Color.Black : Color := .Gray16 0
/-- Library value `color.White`, which is `Gray16{0xffff}`. -/
def Color.White : Color := .Gray16 0xffff
/-- Library value `color.Transparent`, which is `Alpha16{0}`. -/
def Color.Transparent : Color := .Alpha16 0

/-- The error-diffusion kernels of package `dither` that the program names. -/
inductive ErrorDiffusionMatrix where
  | FloydSteinberg | JarvisJudiceNinke | Stucki | Atkinson | Sierra | Sierra2
  | SierraLite | StevenPigeon | Burkes | FalseFloydSteinberg
deriving DecidableEq, Repr

/-- The Go identifier of each kernel of package `dither`. -/
def ErrorDiffusionMatrix.ident : ErrorDiffusionMatrix → String
  | .FloydSteinberg => "FloydSteinberg"
  | .JarvisJudiceNinke => "JarvisJudiceNinke"
  | .Stucki => "Stucki"
  | .Atkinson => "Atkinson"
  | .Sierra => "Sierra"
  | .Sierra2 => "Sierra2"
  | .SierraLite => "SierraLite"
  | .StevenPigeon => "StevenPigeon"
  | .Burkes => "Burkes"
  | .FalseFloydSteinberg => "FalseFloydSteinberg"

/-- The value `dither.ErrorDiffusionStrength(kernel, strength)`, kept symbolic. -/
structure ScaledMatrix where
  kernel : ErrorDiffusionMatrix
  strength : ℚ
deriving DecidableEq

/-- Library function `dither.ErrorDiffusionStrength`. -/
def ErrorDiffusionStrength (kernel : ErrorDiffusionMatrix) (strength : ℚ) : ScaledMatrix :=
  ⟨kernel, strength⟩

/-- The fields of a `dither.Ditherer` that `ditherImage` sets; `Matrix = none`
is the unset (nil) matrix. -/
structure Ditherer where
  palette : List Color
  Serpentine : Bool
  Matrix : Option ScaledMatrix
deriving DecidableEq

/-- Source lines 41-82: the ditherer that `ditherImage` builds, before it
applies it to the image at line 87. -/
def ditherImage (U : CaseTable) (ditherAlg : String) (ditherStrength : ℚ)
    (ditherSerpentine : Bool) : Ditherer :=
  let palette : List Color := [Color.Black, Color.White, Color.Gray16 0, Color.Transparent]
  let ditherAlg := ToLower U ditherAlg
  let matrix : Option ScaledMatrix :=
    if ditherAlg = "floydsteinberg" then
      some (ErrorDiffusionStrength .FloydSteinberg ditherStrength)
    else if ditherAlg = "jarvisjudiceninke" then
      some (ErrorDiffusionStrength .JarvisJudiceNinke ditherStrength)
    else if ditherAlg = "stucki" then
      some (ErrorDiffusionStrength .Stucki ditherStrength)
    else if ditherAlg = "atkinson" then
      some (ErrorDiffusionStrength .Atkinson ditherStrength)
    else if ditherAlg = "sierra" then
      some (ErrorDiffusionStrength .Sierra ditherStrength)
    else if ditherAlg = "sierra2" then
      some (ErrorDiffusionStrength .Sierra2 ditherStrength)
    else if ditherAlg = "sierralite" then
      some (ErrorDiffusionStrength .SierraLite ditherStrength)
    else if ditherAlg = "stevenpigeon" then
      some (ErrorDiffusionStrength .StevenPigeon ditherStrength)
    else if ditherAlg = "burkes" then
      some (ErrorDiffusionStrength .Burkes ditherStrength)
    else if ditherAlg = "falsefloydsteinberg" then
      some (ErrorDiffusionStrength .FalseFloydSteinberg ditherStrength)
    else none
  { palette := palette, Serpentine := ditherSerpentine, Matrix := matrix }

/-- Source line 87, library method `Dither` of a `dither.Ditherer`, on the
bounds: a ditherer without a matrix (and without a mapper) is invalid and the
call panics; otherwise the result has the bounds of the image. -/
def Ditherer.Dither (d : Ditherer) (img : Point) : Option Point :=
  if d.Matrix.isSome then some img else none

/-- Source line 328: the list `ditherAlgs` of `main`. -/
def ditherAlgs : List String :=
  ["FloydSteinberg", "JarvisJudiceNinke", "Stucki", "Atkinson", "Sierra", "Sierra2",
   "SierraLite", "StevenPigeon", "Burkes", "FalseFloydSteinberg"]

/-- Two characters that are the same letter up to case: they have the same
lower-case form. -/
def sameLetter (U : CaseTable) (c d : Char) : Prop := U.lower c = U.lower d

/-- Two names that differ only in letter case. -/
def differOnlyInCase (U : CaseTable) (a b : String) : Prop :=
  List.Forall₂ (sameLetter U) a.data b.data

/-- Two ASCII characters that are equal or are the two cases of one letter. -/
def asciiCasePair (c d : Char) : Bool :=
  c == d || (c.isUpper && d == c.toLower) || (d.isUpper && c == d.toLower)

/-! ## The daemons' watch directory -/

/-- Source lines 94-96: the `input` that `watcherDaemon` monitors. -/
def watcherDaemonInput (input : String) : Option String :=
  if Contains input '*' then sliceTo input (LastIndex input '/') else some input

/-- Source lines 149-151: the `input` that `slideShowDaemon` reports. -/
def slideShowDaemonInput (input : String) : Option String :=
  if Contains input '*' then sliceTo input (LastIndex input '/') else some input

/-- Source line 289: the default value of the flag `input`. -/
def defaultInput : String := "*.jp*g"

/-! ## `processImages` -/

/-- The flag values that `processImages` receives. -/
structure Options where
  dither : Bool
  ditherAlg : String
  ditherStrength : ℚ
  ditherSerpentine : Bool
  rotate : Bool
  crop : Bool
  quality : Int

/-- What the operating system and the codecs answer.  For a path:
the bounds of the image that `jpeg.Decode` (resp. `png.Decode`) returns, or
`none` when the decoder reports an error; whether `os.Create` of the path
succeeds; whether `jpeg.Encode` into the created file succeeds. -/
structure Env where
  jpegDecode : String → Option Point
  pngDecode : String → Option Point
  createOk : String → Bool
  encodeOk : String → Bool

/-- Library `imaging.Rotate90`, on the bounds: width and height are exchanged. -/
def Rotate90 (img : Point) : Point := ⟨img.Y, img.X⟩

/-- Library `imaging.CropCenter(img, width, height)`, on the bounds: the
centred rectangle is intersected with the image. -/
def CropCenter (img : Point) (width height : Int) : Point :=
  ⟨min img.X width, min img.Y height⟩

/-- Source lines 230-237: the forced rotation and the forced crop. -/
def forced (o : Options) (img : Point) : Point :=
  let img := if o.rotate then Rotate90 img else img
  if o.crop then CropCenter img 960 540 else img

/-- Source lines 241-244: an image that is higher than wide is turned by 90
degrees (`imaging.Rotate` with angle 90 is `imaging.Rotate90`). -/
def orient (img : Point) : Point :=
  if img.Y > img.X then Rotate90 img else img

/-- Source lines 226-244: the bounds of the image that is handed to
`CalculateDimensions`, after the optional dithering, the forced rotation, the
forced crop and the orientation step; `none` when `ditherImage` panics. -/
def prepare (U : CaseTable) (o : Options) (img : Point) : Option Point :=
  match (if o.dither then
      (ditherImage U o.ditherAlg o.ditherStrength o.ditherSerpentine).Dither img
    else some img) with
  | none => none
  | some img => some (orient (forced o img))

/-- Source line 254: `offsetX := int((960 - width) / 2.0)`, an integer
division, which truncates toward zero. -/
def offsetX (width : Int) : Int := Int.tdiv (960 - width) 2

/-- Source line 255: `offsetY := int((540 - height) / 2.0)`. -/
def offsetY (height : Int) : Int := Int.tdiv (540 - height) 2

/-- Source line 196: the extension of a path, `none` when the slice
expression panics. -/
def extOf (U : CaseTable) (filepath : String) : Option String :=
  (sliceFrom filepath (LastIndex filepath '.')).map (ToLower U)

/-- Source line 197: the test that lets a file through. -/
def supported (ext : String) : Bool :=
  !(ext != ".jpg" && ext != ".jpeg" && ext != ".png")

/-- Source lines 202-203 and 258-260: the base name of the output file. -/
def baseNameOf (dither : Bool) (ditherAlg : String) (filepath ext : String) : String :=
  let baseName := TrimSuffix filepath ext
  let baseName := ReplaceAll baseName '_' '-'
  if dither then baseName ++ "-" ++ ditherAlg else baseName

/-- Source line 262: `fmt.Sprintf("%s_%dx%d_%dx%d_resized.jpg", ...)`. -/
def filenameOf (baseName : String) (width height offsetX offsetY : Int) : String :=
  baseName ++ "_" ++ formatInt width ++ "x" ++ formatInt height ++ "_" ++
    formatInt offsetX ++ "x" ++ formatInt offsetY ++ "_resized.jpg"

/-- Source lines 246-264: the output path for a base name and a planned size. -/
def outpathOf (outdir baseName : String) (newSize : Point) : String :=
  let width := newSize.X
  let height := newSize.Y
  outdir ++ "/" ++ filenameOf baseName width height (offsetX width) (offsetY height)

/-- What one iteration of the loop of `processImages` does. -/
inductive Outcome where
  /-- The slice expression of line 196 or `ditherImage` panicked. -/
  | panicked
  /-- Lines 197-200: logged as unsupported, `continue`. -/
  | unsupported
  /-- Lines 205-224 and 272-275: `os.Open`, the decoder or `os.Create`
  failed, `log.Fatal`; nothing was written. -/
  | fatal
  /-- Lines 267-270: the output path exists, `continue`. -/
  | skipped (outpath : String)
  /-- Lines 272-280: the output path was created, then `jpeg.Encode` failed,
  `log.Fatal`; the file stays. -/
  | encodeFailed (outpath : String)
  /-- Lines 272-284: the output path was created and the image written. -/
  | created (outpath : String)
deriving DecidableEq, Repr

/-- Source lines 196-284: one iteration of the loop, on the list `files` of
the paths that exist.  `os.Open` succeeds on the paths that exist and
`os.Stat` reports exactly those. -/
def processFile (U : CaseTable) (env : Env) (o : Options) (outdir : String)
    (files : List String) (filepath : String) : Outcome :=
  match extOf U filepath with
  | none => .panicked
  | some ext =>
    if supported ext = false then .unsupported
    else if filepath ∉ files then .fatal
    else
      match (if ext = ".jpg" ∨ ext = ".jpeg" then env.jpegDecode filepath
             else env.pngDecode filepath) with
      | none => .fatal
      | some img =>
        match prepare U o img with
        | none => .panicked
        | some img =>
          let newSize := CalculateDimensions img 960 540
          let outpath := outpathOf outdir (baseNameOf o.dither o.ditherAlg filepath ext) newSize
          if outpath ∈ files then .skipped outpath
          else if env.createOk outpath = false then .fatal
          else if env.encodeOk outpath = false then .encodeFailed outpath
          else .created outpath

/-- How a call of `processImages` ends: it returns, or the process ends in
`log.Fatal` before a file is created, or in `log.Fatal` of a failed
`jpeg.Encode` after the file was created, or in a panic. -/
inductive Status where
  | returned
  | fatal
  | fatalAfterCreate
  | panicked
deriving DecidableEq, Repr

/-- The result of a call of `processImages`: the paths that exist afterwards,
the paths the call created (latest first), and how it ended. -/
structure Run where
  files : List String
  written : List String
  status : Status
deriving DecidableEq, Repr

/-- Source lines 191-286: `processImages` over the match list, from the list
`files` of existing paths. -/
def processImages (U : CaseTable) (env : Env) (o : Options) (outdir : String) :
    List String → List String → Run
  | [], files => ⟨files, [], .returned⟩
  | filepath :: rest, files =>
    match processFile U env o outdir files filepath with
    | .panicked => ⟨files, [], .panicked⟩
    | .fatal => ⟨files, [], .fatal⟩
    | .unsupported => processImages U env o outdir rest files
    | .skipped _ => processImages U env o outdir rest files
    | .encodeFailed outpath => ⟨outpath :: files, [outpath], .fatalAfterCreate⟩
    | .created outpath =>
      let r := processImages U env o outdir rest (outpath :: files)
      ⟨r.files, r.written ++ [outpath], r.status⟩

/-! ## Lemmas on `float32` rounding -/

theorem roundHalfEven_sub_le (x : ℚ) : |(roundHalfEven x : ℚ) - x| ≤ 1 / 2 := by
  have h1 := Int.floor_le x
  have h2 := Int.lt_floor_add_one x
  unfold roundHalfEven
  rw [abs_le]
  split_ifs with a b c
  · constructor <;> linarith
  · push_cast; constructor <;> linarith
  · constructor <;> linarith
  · push_cast; constructor <;> linarith

theorem roundHalfEven_intCast (n : Int) : roundHalfEven (n : ℚ) = n := by
  unfold roundHalfEven
  simp

theorem roundHalfEven_mono {x y : ℚ} (h : x ≤ y) : roundHalfEven x ≤ roundHalfEven y := by
  have hf : ⌊x⌋ ≤ ⌊y⌋ := Int.floor_mono h
  have hx1 := Int.floor_le x
  have hx2 := Int.lt_floor_add_one x
  have hy1 := Int.floor_le y
  have hy2 := Int.lt_floor_add_one y
  have lx : ⌊x⌋ ≤ roundHalfEven x ∧ roundHalfEven x ≤ ⌊x⌋ + 1 := by
    unfold roundHalfEven; split_ifs <;> constructor <;> omega
  have ly : ⌊y⌋ ≤ roundHalfEven y ∧ roundHalfEven y ≤ ⌊y⌋ + 1 := by
    unfold roundHalfEven; split_ifs <;> constructor <;> omega
  rcases lt_or_eq_of_le hf with hlt | heq
  · omega
  · unfold roundHalfEven
    rw [← heq]
    have hxy : x - ⌊x⌋ ≤ y - ⌊x⌋ := by linarith
    split_ifs <;> first | omega | (exfalso; linarith)


theorem roundHalfEven_eq_of_abs_lt {x : ℚ} {m : Int} (h : |x - m| < 1 / 2) :
    roundHalfEven x = m := by
  rw [abs_lt] at h
  obtain ⟨h1, h2⟩ := h
  by_cases hm : (m : ℚ) ≤ x
  · have hf : ⌊x⌋ = m := by
      rw [Int.floor_eq_iff]; constructor <;> linarith
    unfold roundHalfEven
    rw [hf, if_pos (by linarith)]
  · have hf : ⌊x⌋ = m - 1 := by
      rw [Int.floor_eq_iff]; push_cast; constructor <;> linarith
    unfold roundHalfEven
    rw [hf]
    push_cast
    rw [if_neg (by linarith), if_pos (by linarith)]
    ring

theorem two_zpow_pos (e : Int) : (0 : ℚ) < 2 ^ e := zpow_pos (by norm_num) e

theorem log_bounds {q : ℚ} (hq : 0 < q) :
    (2 : ℚ) ^ Int.log 2 q ≤ q ∧ q < (2 : ℚ) ^ (Int.log 2 q + 1) := by
  have h1 := Int.zpow_log_le_self (b := 2) (r := q) (by norm_num) hq
  have h2 := Int.lt_zpow_succ_log_self (b := 2) (by norm_num) q
  exact ⟨by exact_mod_cast h1, by exact_mod_cast h2⟩

theorem log_eq_of_bounds {q : ℚ} {e : Int} (hq : 0 < q) (h1 : (2 : ℚ) ^ e ≤ q)
    (h2 : q < (2 : ℚ) ^ (e + 1)) : Int.log 2 q = e := by
  have a : e ≤ Int.log 2 q :=
    (Int.zpow_le_iff_le_log (b := 2) (by norm_num) hq).mp (by exact_mod_cast h1)
  have b : Int.log 2 q < e + 1 :=
    (Int.lt_zpow_iff_log_lt (b := 2) (by norm_num) hq).mp (by exact_mod_cast h2)
  omega

theorem round32_of_pos {q : ℚ} (hq : 0 < q) :
    round32 q = (roundHalfEven (q / 2 ^ (Int.log 2 q - 23)) : ℚ) * 2 ^ (Int.log 2 q - 23) := by
  unfold round32
  rw [if_neg hq.ne', abs_of_pos hq]

/-- Evaluation of `round32`: in the binade `2 ^ e ≤ q < 2 ^ (e + 1)` the result is the
multiple `m * 2 ^ (e - 23)` whose mantissa `m` is within a half of the scaled value. -/
theorem round32_eq {q : ℚ} (e m : Int) (hq : 0 < q) (h1 : (2 : ℚ) ^ e ≤ q)
    (h2 : q < (2 : ℚ) ^ (e + 1)) (h3 : |q / 2 ^ (e - 23) - m| < 1 / 2) :
    round32 q = (m : ℚ) * 2 ^ (e - 23) := by
  rw [round32_of_pos hq, log_eq_of_bounds hq h1 h2, roundHalfEven_eq_of_abs_lt h3]

/-- The scaled value lies in `[2 ^ 23, 2 ^ 24)`. -/
theorem scaled_bounds {q : ℚ} (hq : 0 < q) :
    (2 : ℚ) ^ (23 : ℕ) ≤ q / 2 ^ (Int.log 2 q - 23) ∧
      q / 2 ^ (Int.log 2 q - 23) < (2 : ℚ) ^ (24 : ℕ) := by
  obtain ⟨h1, h2⟩ := log_bounds hq
  have hu := two_zpow_pos (Int.log 2 q - 23)
  have e1 : (2 : ℚ) ^ Int.log 2 q = 2 ^ (23 : ℕ) * 2 ^ (Int.log 2 q - 23) := by
    rw [← zpow_natCast, ← zpow_add₀ (by norm_num : (2 : ℚ) ≠ 0)]
    congr 1; push_cast; ring
  have e2 : (2 : ℚ) ^ (Int.log 2 q + 1) = 2 ^ (24 : ℕ) * 2 ^ (Int.log 2 q - 23) := by
    rw [← zpow_natCast, ← zpow_add₀ (by norm_num : (2 : ℚ) ≠ 0)]
    congr 1; push_cast; ring
  constructor
  · rw [le_div_iff₀ hu, ← e1]; exact h1
  · rw [div_lt_iff₀ hu, ← e2]; exact h2

/-- Relative error of one rounding: at most `2 ^ (-24)`. -/
theorem round32_error {q : ℚ} (hq : 0 < q) : |round32 q - q| ≤ q / 2 ^ (24 : ℕ) := by
  obtain ⟨h1, -⟩ := scaled_bounds hq
  have hu := two_zpow_pos (Int.log 2 q - 23)
  have hr := roundHalfEven_sub_le (q / 2 ^ (Int.log 2 q - 23))
  rw [round32_of_pos hq]
  have e : (roundHalfEven (q / 2 ^ (Int.log 2 q - 23)) : ℚ) * 2 ^ (Int.log 2 q - 23) - q =
      ((roundHalfEven (q / 2 ^ (Int.log 2 q - 23)) : ℚ) - q / 2 ^ (Int.log 2 q - 23)) *
        2 ^ (Int.log 2 q - 23) := by
    field_simp
  rw [e, abs_mul, abs_of_pos hu]
  have h3 : (2 : ℚ) ^ (Int.log 2 q - 23) ≤ q / 2 ^ (23 : ℕ) := by
    rw [le_div_iff₀ (by positivity)]
    rw [le_div_iff₀ hu] at h1
    linarith
  calc |(roundHalfEven (q / 2 ^ (Int.log 2 q - 23)) : ℚ) - q / 2 ^ (Int.log 2 q - 23)| *
        2 ^ (Int.log 2 q - 23)
      ≤ 1 / 2 * (q / 2 ^ (23 : ℕ)) := mul_le_mul hr h3 hu.le (by norm_num)
    _ = q / 2 ^ (24 : ℕ) := by ring

theorem round32_bounds {q : ℚ} (hq : 0 < q) :
    q * (1 - 1 / 2 ^ (24 : ℕ)) ≤ round32 q ∧ round32 q ≤ q * (1 + 1 / 2 ^ (24 : ℕ)) := by
  have h := round32_error hq
  rw [abs_le] at h
  constructor <;> linarith [h.1, h.2]

theorem round32_pos {q : ℚ} (hq : 0 < q) : 0 < round32 q := by
  have h := (round32_bounds hq).1
  have : 0 < q * (1 - 1 / 2 ^ (24 : ℕ)) := mul_pos hq (by norm_num)
  linarith

/-- A rounded value stays in the closed binade of its argument. -/
theorem round32_binade {q : ℚ} (hq : 0 < q) :
    (2 : ℚ) ^ Int.log 2 q ≤ round32 q ∧ round32 q ≤ (2 : ℚ) ^ (Int.log 2 q + 1) := by
  obtain ⟨h1, h2⟩ := scaled_bounds hq
  have hu := two_zpow_pos (Int.log 2 q - 23)
  have e1 : (2 : ℚ) ^ Int.log 2 q = 2 ^ (23 : ℕ) * 2 ^ (Int.log 2 q - 23) := by
    rw [← zpow_natCast, ← zpow_add₀ (by norm_num : (2 : ℚ) ≠ 0)]
    congr 1; push_cast; ring
  have e2 : (2 : ℚ) ^ (Int.log 2 q + 1) = 2 ^ (24 : ℕ) * 2 ^ (Int.log 2 q - 23) := by
    rw [← zpow_natCast, ← zpow_add₀ (by norm_num : (2 : ℚ) ≠ 0)]
    congr 1; push_cast; ring
  have a : ((2 ^ 23 : Int) : ℚ) ≤ roundHalfEven (q / 2 ^ (Int.log 2 q - 23)) := by
    have := roundHalfEven_mono (x := ((2 ^ 23 : Int) : ℚ)) (by push_cast; exact h1)
    rw [roundHalfEven_intCast] at this
    exact_mod_cast this
  have b : (roundHalfEven (q / 2 ^ (Int.log 2 q - 23)) : ℚ) ≤ ((2 ^ 24 : Int) : ℚ) := by
    have := roundHalfEven_mono (y := ((2 ^ 24 : Int) : ℚ)) (by push_cast; exact h2.le)
    rw [roundHalfEven_intCast] at this
    exact_mod_cast this
  rw [round32_of_pos hq, e1, e2]
  push_cast at a b
  exact ⟨mul_le_mul_of_nonneg_right a hu.le, mul_le_mul_of_nonneg_right b hu.le⟩

/-- Rounding to `float32` is monotone. -/
theorem round32_mono {p q : ℚ} (hp : 0 < p) (h : p ≤ q) : round32 p ≤ round32 q := by
  have hq : 0 < q := lt_of_lt_of_le hp h
  have hl : Int.log 2 p ≤ Int.log 2 q := Int.log_mono_right hp h
  rcases lt_or_eq_of_le hl with hlt | heq
  · have a := (round32_binade hp).2
    have b := (round32_binade hq).1
    have c : (2 : ℚ) ^ (Int.log 2 p + 1) ≤ 2 ^ Int.log 2 q :=
      zpow_le_zpow_right₀ (by norm_num) (by omega)
    linarith
  · rw [round32_of_pos hp, round32_of_pos hq, heq]
    have hu := two_zpow_pos (Int.log 2 q - 23)
    apply mul_le_mul_of_nonneg_right _ hu.le
    have : p / 2 ^ (Int.log 2 q - 23) ≤ q / 2 ^ (Int.log 2 q - 23) :=
      div_le_div_of_nonneg_right h hu.le
    exact_mod_cast roundHalfEven_mono this


theorem truncToInt_of_nonneg {q : ℚ} (hq : 0 ≤ q) : truncToInt q = ⌊q⌋ := by
  unfold truncToInt
  rw [Rat.floor_def]
  exact Int.tdiv_eq_ediv (Rat.num_nonneg.mpr hq) (Int.ofNat_nonneg _)

/-! ## Lemmas on `CalculateDimensions` in `float32` -/

/-- The `float32` quotient `M / float32(W)` against the exact quotient `M / W`. -/
theorem ratio_bounds {M W : ℚ} (hM : 0 < M) (hW : 0 < W) :
    M / W * ((1 - 1 / 2 ^ (24 : ℕ)) / (1 + 1 / 2 ^ (24 : ℕ))) ≤ round32 (M / round32 W) ∧
      round32 (M / round32 W) ≤
        M / W * ((1 + 1 / 2 ^ (24 : ℕ)) / (1 - 1 / 2 ^ (24 : ℕ))) := by
  have hWf := round32_pos hW
  obtain ⟨w1, w2⟩ := round32_bounds hW
  obtain ⟨r1, r2⟩ := round32_bounds (div_pos hM hWf)
  have ha : (0 : ℚ) < 1 - 1 / 2 ^ (24 : ℕ) := by norm_num
  have hb : (0 : ℚ) < 1 + 1 / 2 ^ (24 : ℕ) := by norm_num
  have q1 : M / (W * (1 + 1 / 2 ^ (24 : ℕ))) ≤ M / round32 W :=
    div_le_div_of_nonneg_left hM.le hWf w2
  have q2 : M / round32 W ≤ M / (W * (1 - 1 / 2 ^ (24 : ℕ))) :=
    div_le_div_of_nonneg_left hM.le (mul_pos hW ha) w1
  constructor
  · calc M / W * ((1 - 1 / 2 ^ (24 : ℕ)) / (1 + 1 / 2 ^ (24 : ℕ)))
        = M / (W * (1 + 1 / 2 ^ (24 : ℕ))) * (1 - 1 / 2 ^ (24 : ℕ)) := by
          field_simp; ring
      _ ≤ M / round32 W * (1 - 1 / 2 ^ (24 : ℕ)) := mul_le_mul_of_nonneg_right q1 ha.le
      _ ≤ round32 (M / round32 W) := r1
  · calc round32 (M / round32 W) ≤ M / round32 W * (1 + 1 / 2 ^ (24 : ℕ)) := r2
      _ ≤ M / (W * (1 - 1 / 2 ^ (24 : ℕ))) * (1 + 1 / 2 ^ (24 : ℕ)) :=
          mul_le_mul_of_nonneg_right q2 hb.le
      _ = M / W * ((1 + 1 / 2 ^ (24 : ℕ)) / (1 - 1 / 2 ^ (24 : ℕ))) := by
          field_simp; ring

/-- The `float32` product `float32(V) * r` against `V * s`, when the ratio `r` is
close to `s`. -/
theorem product_bounds {V r s : ℚ} (hV : 0 < V) (hs : 0 < s)
    (h1 : s * ((1 - 1 / 2 ^ (24 : ℕ)) / (1 + 1 / 2 ^ (24 : ℕ))) ≤ r)
    (h2 : r ≤ s * ((1 + 1 / 2 ^ (24 : ℕ)) / (1 - 1 / 2 ^ (24 : ℕ)))) :
    V * s * (1 - 1 / 1000000) ≤ round32 (round32 V * r) ∧
      round32 (round32 V * r) ≤ V * s * (1 + 1 / 1000000) := by
  have hVf := round32_pos hV
  obtain ⟨v1, v2⟩ := round32_bounds hV
  have hr : 0 < r := lt_of_lt_of_le (mul_pos hs (by norm_num)) h1
  obtain ⟨p1, p2⟩ := round32_bounds (mul_pos hVf hr)
  have ha : (0 : ℚ) < 1 - 1 / 2 ^ (24 : ℕ) := by norm_num
  have hb : (0 : ℚ) < 1 + 1 / 2 ^ (24 : ℕ) := by norm_num
  have hVs : 0 < V * s := mul_pos hV hs
  constructor
  · calc V * s * (1 - 1 / 1000000)
        ≤ V * s * ((1 - 1 / 2 ^ (24 : ℕ)) * ((1 - 1 / 2 ^ (24 : ℕ)) / (1 + 1 / 2 ^ (24 : ℕ)))
            * (1 - 1 / 2 ^ (24 : ℕ))) :=
          mul_le_mul_of_nonneg_left (by norm_num) hVs.le
      _ = (V * (1 - 1 / 2 ^ (24 : ℕ))) *
            (s * ((1 - 1 / 2 ^ (24 : ℕ)) / (1 + 1 / 2 ^ (24 : ℕ)))) *
            (1 - 1 / 2 ^ (24 : ℕ)) := by ring
      _ ≤ (round32 V * r) * (1 - 1 / 2 ^ (24 : ℕ)) :=
          mul_le_mul_of_nonneg_right
            (mul_le_mul v1 h1 (mul_pos hs (by norm_num)).le hVf.le) ha.le
      _ ≤ round32 (round32 V * r) := p1
  · calc round32 (round32 V * r) ≤ (round32 V * r) * (1 + 1 / 2 ^ (24 : ℕ)) := p2
      _ ≤ (V * (1 + 1 / 2 ^ (24 : ℕ))) *
            (s * ((1 + 1 / 2 ^ (24 : ℕ)) / (1 - 1 / 2 ^ (24 : ℕ)))) *
            (1 + 1 / 2 ^ (24 : ℕ)) :=
          mul_le_mul_of_nonneg_right
            (mul_le_mul v2 h2 hr.le (mul_pos hV hb).le) hb.le
      _ = V * s * ((1 + 1 / 2 ^ (24 : ℕ)) * ((1 + 1 / 2 ^ (24 : ℕ)) / (1 - 1 / 2 ^ (24 : ℕ)))
            * (1 + 1 / 2 ^ (24 : ℕ))) := by ring
      _ ≤ V * s * (1 + 1 / 1000000) :=
          mul_le_mul_of_nonneg_left (by norm_num) hVs.le

/-- The ratio that the program selects is the smaller of the two `float32`
ratios, and it is close to the exact scale `min (maxW / W) (maxH / H)`. -/
theorem selected_ratio_bounds (maxW maxH : ℚ) {W H : ℚ} (hmw : 0 < maxW) (hmh : 0 < maxH)
    (hW : 0 < W) (hH : 0 < H) :
    min (maxW / W) (maxH / H) * ((1 - 1 / 2 ^ (24 : ℕ)) / (1 + 1 / 2 ^ (24 : ℕ))) ≤
        min (round32 (maxW / round32 W)) (round32 (maxH / round32 H)) ∧
      min (round32 (maxW / round32 W)) (round32 (maxH / round32 H)) ≤
        min (maxW / W) (maxH / H) * ((1 + 1 / 2 ^ (24 : ℕ)) / (1 - 1 / 2 ^ (24 : ℕ))) := by
  obtain ⟨a1, a2⟩ := ratio_bounds hmw hW
  obtain ⟨b1, b2⟩ := ratio_bounds hmh hH
  have hc : (0 : ℚ) ≤ (1 - 1 / 2 ^ (24 : ℕ)) / (1 + 1 / 2 ^ (24 : ℕ)) := by norm_num
  constructor
  · apply le_min
    · exact le_trans (mul_le_mul_of_nonneg_right (min_le_left _ _) hc) a1
    · exact le_trans (mul_le_mul_of_nonneg_right (min_le_right _ _) hc) b1
  · rcases le_total (maxW / W) (maxH / H) with h | h
    · rw [min_eq_left h]; exact le_trans (min_le_left _ _) a2
    · rw [min_eq_right h]; exact le_trans (min_le_right _ _) b2

/-- The result of `CalculateDimensions`, in terms of `min`. -/
theorem CalculateDimensions_eq_min (W H : Int) (maxW maxH : ℚ) :
    CalculateDimensions ⟨W, H⟩ maxW maxH =
      ⟨truncToInt (round32 (round32 W *
          min (round32 (maxW / round32 W)) (round32 (maxH / round32 H)))),
        truncToInt (round32 (round32 H *
          min (round32 (maxW / round32 W)) (round32 (maxH / round32 H))))⟩ := by
  unfold CalculateDimensions
  simp only
  split_ifs with h
  · rw [min_eq_left h.le]
  · rw [min_eq_right (not_lt.mp h)]

/-- The exactly scaled sizes stay inside the box. -/
theorem exact_scaled_le (maxW maxH : ℚ) {W H : ℚ} (hW : 0 < W) (hH : 0 < H) :
    W * min (maxW / W) (maxH / H) ≤ maxW ∧ H * min (maxW / W) (maxH / H) ≤ maxH := by
  constructor
  · calc W * min (maxW / W) (maxH / H) ≤ W * (maxW / W) :=
          mul_le_mul_of_nonneg_left (min_le_left _ _) hW.le
      _ = maxW := by field_simp
  · calc H * min (maxW / W) (maxH / H) ≤ H * (maxH / H) :=
          mul_le_mul_of_nonneg_left (min_le_right _ _) hH.le
      _ = maxH := by field_simp

/-- For a box of at most 65536 pixels a side, the two `float32` products of
`CalculateDimensions` are positive and within a tenth of a pixel of the
exactly scaled sizes. -/
theorem products_close (W H : Int) (maxW maxH : ℚ) (hW : 0 < W) (hH : 0 < H)
    (hmw : 0 < maxW) (hmh : 0 < maxH) (bw : maxW ≤ 65536) (bh : maxH ≤ 65536) :
    (0 < round32 (round32 W *
        min (round32 (maxW / round32 W)) (round32 (maxH / round32 H))) ∧
      |round32 (round32 W * min (round32 (maxW / round32 W)) (round32 (maxH / round32 H))) -
        (W : ℚ) * min (maxW / (W : ℚ)) (maxH / (H : ℚ))| ≤ 1 / 10) ∧
    (0 < round32 (round32 H *
        min (round32 (maxW / round32 W)) (round32 (maxH / round32 H))) ∧
      |round32 (round32 H * min (round32 (maxW / round32 W)) (round32 (maxH / round32 H))) -
        (H : ℚ) * min (maxW / (W : ℚ)) (maxH / (H : ℚ))| ≤ 1 / 10) := by
  have hW' : (0 : ℚ) < W := by exact_mod_cast hW
  have hH' : (0 : ℚ) < H := by exact_mod_cast hH
  have hs : (0 : ℚ) < min (maxW / (W : ℚ)) (maxH / (H : ℚ)) :=
    lt_min (div_pos hmw hW') (div_pos hmh hH')
  obtain ⟨s1, s2⟩ := selected_ratio_bounds maxW maxH hmw hmh hW' hH'
  obtain ⟨w1, w2⟩ := product_bounds hW' hs s1 s2
  obtain ⟨h1, h2⟩ := product_bounds hH' hs s1 s2
  have hr : 0 < min (round32 (maxW / round32 (W : ℚ))) (round32 (maxH / round32 (H : ℚ))) :=
    lt_of_lt_of_le (mul_pos hs (by norm_num)) s1
  obtain ⟨bW, bH⟩ := exact_scaled_le maxW maxH hW' hH'
  have pW : 0 < (W : ℚ) * min (maxW / (W : ℚ)) (maxH / (H : ℚ)) := mul_pos hW' hs
  have pH : 0 < (H : ℚ) * min (maxW / (W : ℚ)) (maxH / (H : ℚ)) := mul_pos hH' hs
  refine ⟨⟨round32_pos (mul_pos (round32_pos hW') hr), ?_⟩,
    ⟨round32_pos (mul_pos (round32_pos hH') hr), ?_⟩⟩
  · rw [abs_le]; constructor <;> nlinarith
  · rw [abs_le]; constructor <;> nlinarith

/-- The planned sizes are the floors of the two `float32` products. -/
theorem CalculateDimensions_floor (W H : Int) (maxW maxH : ℚ) (hW : 0 < W) (hH : 0 < H)
    (hmw : 0 < maxW) (hmh : 0 < maxH) (bw : maxW ≤ 65536) (bh : maxH ≤ 65536) :
    CalculateDimensions ⟨W, H⟩ maxW maxH =
      ⟨⌊round32 (round32 W *
          min (round32 (maxW / round32 W)) (round32 (maxH / round32 H)))⌋,
        ⌊round32 (round32 H *
          min (round32 (maxW / round32 W)) (round32 (maxH / round32 H)))⌋⟩ := by
  obtain ⟨⟨p1, -⟩, ⟨p2, -⟩⟩ := products_close W H maxW maxH hW hH hmw hmh bw bh
  rw [CalculateDimensions_eq_min, truncToInt_of_nonneg p1.le, truncToInt_of_nonneg p2.le]

/-- A floor of a positive value that is within a tenth of `e`. -/
theorem floor_near {v e : ℚ} (hv : 0 < v) (h : |v - e| ≤ 1 / 10) :
    ⌊e⌋ - 1 ≤ ⌊v⌋ ∧ ⌊v⌋ ≤ ⌊e⌋ + 1 ∧ 0 ≤ ⌊v⌋ ∧ (∀ B : Int, e ≤ B → ⌊v⌋ ≤ B) ∧
      e - 1 - 1 / 10 < (⌊v⌋ : ℚ) ∧ (⌊v⌋ : ℚ) ≤ e + 1 / 10 := by
  rw [abs_le] at h
  obtain ⟨h1, h2⟩ := h
  have e1 := Int.floor_le e
  have e2 := Int.lt_floor_add_one e
  have v1 := Int.floor_le v
  have v2 := Int.lt_floor_add_one v
  refine ⟨?_, ?_, Int.floor_nonneg.mpr hv.le, ?_, by linarith, by linarith⟩
  · rw [Int.le_floor]; push_cast; linarith
  · have : ⌊v⌋ < ⌊e⌋ + 2 := by
      rw [Int.floor_lt]; push_cast; linarith
    omega
  · intro B hB
    have : ⌊v⌋ < B + 1 := by
      rw [Int.floor_lt]; push_cast; linarith
    omega

/-- For a box of at most 65536 pixels a side each planned size is within one
pixel of the floor of the exactly scaled size, is not negative, and is at
most any integer bound of the exactly scaled size. -/
theorem CalculateDimensions_near (W H : Int) (maxW maxH : ℚ) (hW : 0 < W) (hH : 0 < H)
    (hmw : 0 < maxW) (hmh : 0 < maxH) (bw : maxW ≤ 65536) (bh : maxH ≤ 65536) :
    (⌊(W : ℚ) * min (maxW / (W : ℚ)) (maxH / (H : ℚ))⌋ - 1 ≤
        (CalculateDimensions ⟨W, H⟩ maxW maxH).X ∧
      (CalculateDimensions ⟨W, H⟩ maxW maxH).X ≤
        ⌊(W : ℚ) * min (maxW / (W : ℚ)) (maxH / (H : ℚ))⌋ + 1 ∧
      0 ≤ (CalculateDimensions ⟨W, H⟩ maxW maxH).X ∧
      (∀ B : Int, (W : ℚ) * min (maxW / (W : ℚ)) (maxH / (H : ℚ)) ≤ B →
        (CalculateDimensions ⟨W, H⟩ maxW maxH).X ≤ B) ∧
      (W : ℚ) * min (maxW / (W : ℚ)) (maxH / (H : ℚ)) - 1 - 1 / 10 <
        ((CalculateDimensions ⟨W, H⟩ maxW maxH).X : ℚ) ∧
      ((CalculateDimensions ⟨W, H⟩ maxW maxH).X : ℚ) ≤
        (W : ℚ) * min (maxW / (W : ℚ)) (maxH / (H : ℚ)) + 1 / 10) ∧
    (⌊(H : ℚ) * min (maxW / (W : ℚ)) (maxH / (H : ℚ))⌋ - 1 ≤
        (CalculateDimensions ⟨W, H⟩ maxW maxH).Y ∧
      (CalculateDimensions ⟨W, H⟩ maxW maxH).Y ≤
        ⌊(H : ℚ) * min (maxW / (W : ℚ)) (maxH / (H : ℚ))⌋ + 1 ∧
      0 ≤ (CalculateDimensions ⟨W, H⟩ maxW maxH).Y ∧
      (∀ B : Int, (H : ℚ) * min (maxW / (W : ℚ)) (maxH / (H : ℚ)) ≤ B →
        (CalculateDimensions ⟨W, H⟩ maxW maxH).Y ≤ B) ∧
      (H : ℚ) * min (maxW / (W : ℚ)) (maxH / (H : ℚ)) - 1 - 1 / 10 <
        ((CalculateDimensions ⟨W, H⟩ maxW maxH).Y : ℚ) ∧
      ((CalculateDimensions ⟨W, H⟩ maxW maxH).Y : ℚ) ≤
        (H : ℚ) * min (maxW / (W : ℚ)) (maxH / (H : ℚ)) + 1 / 10) := by
  obtain ⟨⟨p1, c1⟩, ⟨p2, c2⟩⟩ := products_close W H maxW maxH hW hH hmw hmh bw bh
  rw [CalculateDimensions_floor W H maxW maxH hW hH hmw hmh bw bh]
  exact ⟨floor_near p1 c1, floor_near p2 c2⟩

/-- On the canvas the planned size fits the canvas. -/
theorem CalculateDimensions_canvas_le (W H : Int) (hW : 0 < W) (hH : 0 < H) :
    (CalculateDimensions ⟨W, H⟩ 960 540).X ≤ 960 ∧
      (CalculateDimensions ⟨W, H⟩ 960 540).Y ≤ 540 := by
  have hW' : (0 : ℚ) < W := by exact_mod_cast hW
  have hH' : (0 : ℚ) < H := by exact_mod_cast hH
  obtain ⟨bW, bH⟩ := exact_scaled_le 960 540 hW' hH'
  obtain ⟨⟨-, -, -, a, -, -⟩, ⟨-, -, -, b, -, -⟩⟩ :=
    CalculateDimensions_near W H 960 540 hW hH (by norm_num) (by norm_num) (by norm_num)
      (by norm_num)
  exact ⟨a 960 (by exact_mod_cast bW), b 540 (by exact_mod_cast bH)⟩

/-- On the canvas a size that is at least as wide as high is planned at least
as wide as high. -/
theorem CalculateDimensions_canvas_landscape (W H : Int) (hH : 0 < H) (hHW : H ≤ W) :
    (CalculateDimensions ⟨W, H⟩ 960 540).Y ≤ (CalculateDimensions ⟨W, H⟩ 960 540).X := by
  have hW : 0 < W := lt_of_lt_of_le hH hHW
  have hW' : (0 : ℚ) < W := by exact_mod_cast hW
  have hH' : (0 : ℚ) < H := by exact_mod_cast hH
  have hs : (0 : ℚ) < min (960 / (W : ℚ)) (540 / (H : ℚ)) :=
    lt_min (div_pos (by norm_num) hW') (div_pos (by norm_num) hH')
  obtain ⟨s1, -⟩ := selected_ratio_bounds 960 540 (by norm_num)
    (by norm_num) hW' hH'
  have hr : 0 < min (round32 (960 / round32 (W : ℚ))) (round32 (540 / round32 (H : ℚ))) :=
    lt_of_lt_of_le (mul_pos hs (by norm_num)) s1
  rw [CalculateDimensions_floor W H 960 540 hW hH (by norm_num) (by norm_num) (by norm_num)
    (by norm_num)]
  apply Int.floor_mono
  have hfl : round32 (H : ℚ) ≤ round32 (W : ℚ) := round32_mono hH' (by exact_mod_cast hHW)
  exact round32_mono (mul_pos (round32_pos hH') hr) (mul_le_mul_of_nonneg_right hfl hr.le)

/-- The source 1248x832 is planned as 809x540: the `float32` ratio `540 / 832`
is rounded down and the product with 1248 falls short of 810. -/
theorem CalculateDimensions_1248_832 : CalculateDimensions ⟨1248, 832⟩ 960 540 = ⟨809, 540⟩ := by
  have eW : round32 ((1248 : Int) : ℚ) = 1248 := by
    rw [round32_eq 10 10223616 (by norm_num) (by norm_num) (by norm_num)
      (by rw [abs_lt]; constructor <;> norm_num)]
    norm_num
  have eH : round32 ((832 : Int) : ℚ) = 832 := by
    rw [round32_eq 9 13631488 (by norm_num) (by norm_num) (by norm_num)
      (by rw [abs_lt]; constructor <;> norm_num)]
    norm_num
  have rW : round32 (960 / 1248) = 12905551 / 2 ^ (24 : ℕ) := by
    rw [round32_eq (-1) 12905551 (by norm_num) (by norm_num) (by norm_num)
      (by rw [abs_lt]; constructor <;> norm_num)]
    norm_num
  have rH : round32 (540 / 832) = 10889058 / 2 ^ (24 : ℕ) := by
    rw [round32_eq (-1) 10889058 (by norm_num) (by norm_num) (by norm_num)
      (by rw [abs_lt]; constructor <;> norm_num)]
    norm_num
  have pW : round32 (1248 * (10889058 / 2 ^ (24 : ℕ))) = 13271039 / 2 ^ (14 : ℕ) := by
    rw [round32_eq 9 13271039 (by norm_num) (by norm_num) (by norm_num)
      (by rw [abs_lt]; constructor <;> norm_num)]
    norm_num
  have pH : round32 (832 * (10889058 / 2 ^ (24 : ℕ))) = 540 := by
    rw [round32_eq 9 8847360 (by norm_num) (by norm_num) (by norm_num)
      (by rw [abs_lt]; constructor <;> norm_num)]
    norm_num
  have m : min (round32 (960 / 1248)) (round32 (540 / 832)) = 10889058 / 2 ^ (24 : ℕ) := by
    rw [rW, rH]; norm_num
  rw [CalculateDimensions_floor 1248 832 960 540 (by decide) (by decide) (by norm_num)
    (by norm_num) (by norm_num) (by norm_num), eW, eH, m, pW, pH]
  have f1 : ⌊(13271039 : ℚ) / 2 ^ (14 : ℕ)⌋ = 809 := by
    rw [Int.floor_eq_iff]; norm_num
  have f2 : ⌊(540 : ℚ)⌋ = 540 := by
    rw [Int.floor_eq_iff]; norm_num
  rw [f1, f2]

/-- The source 1920x960 is planned as 960x480: every operation is exact. -/
theorem CalculateDimensions_1920_960 : CalculateDimensions ⟨1920, 960⟩ 960 540 = ⟨960, 480⟩ := by
  have eW : round32 ((1920 : Int) : ℚ) = 1920 := by
    rw [round32_eq 10 15728640 (by norm_num) (by norm_num) (by norm_num)
      (by rw [abs_lt]; constructor <;> norm_num)]
    norm_num
  have eH : round32 ((960 : Int) : ℚ) = 960 := by
    rw [round32_eq 9 15728640 (by norm_num) (by norm_num) (by norm_num)
      (by rw [abs_lt]; constructor <;> norm_num)]
    norm_num
  have rW : round32 (960 / 1920) = 1 / 2 := by
    rw [round32_eq (-1) 8388608 (by norm_num) (by norm_num) (by norm_num)
      (by rw [abs_lt]; constructor <;> norm_num)]
    norm_num
  have rH : round32 (540 / 960) = 9 / 16 := by
    rw [round32_eq (-1) 9437184 (by norm_num) (by norm_num) (by norm_num)
      (by rw [abs_lt]; constructor <;> norm_num)]
    norm_num
  have pW : round32 (1920 * (1 / 2)) = 960 := by
    rw [round32_eq 9 15728640 (by norm_num) (by norm_num) (by norm_num)
      (by rw [abs_lt]; constructor <;> norm_num)]
    norm_num
  have pH : round32 (960 * (1 / 2)) = 480 := by
    rw [round32_eq 8 15728640 (by norm_num) (by norm_num) (by norm_num)
      (by rw [abs_lt]; constructor <;> norm_num)]
    norm_num
  have m : min (round32 (960 / 1920)) (round32 (540 / 960)) = 1 / 2 := by
    rw [rW, rH]; norm_num
  have f1 : ⌊(960 : ℚ)⌋ = 960 := by
    rw [Int.floor_eq_iff]; norm_num
  have f2 : ⌊(480 : ℚ)⌋ = 480 := by
    rw [Int.floor_eq_iff]; norm_num
  rw [CalculateDimensions_floor 1920 960 960 540 (by decide) (by decide) (by norm_num)
    (by norm_num) (by norm_num) (by norm_num), eW, eH, m, pW, pH, f1, f2]
/-! ## Lemmas on `CalculateDimensions` in the exact reading -/

theorem CalculateDimensionsExact_floor (W H : Int) (maxW maxH : ℚ) (hW : 0 < W) (hH : 0 < H)
    (hmw : 0 < maxW) (hmh : 0 < maxH) :
    CalculateDimensionsExact ⟨W, H⟩ maxW maxH =
      ⟨⌊(W : ℚ) * min (maxW / W) (maxH / H)⌋, ⌊(H : ℚ) * min (maxW / W) (maxH / H)⌋⟩ := by
  have hW' : (0 : ℚ) < W := by exact_mod_cast hW
  have hH' : (0 : ℚ) < H := by exact_mod_cast hH
  have h1 : (0 : ℚ) < maxW / W := div_pos hmw hW'
  have h2 : (0 : ℚ) < maxH / H := div_pos hmh hH'
  unfold CalculateDimensionsExact
  simp only
  split_ifs with h
  · rw [min_eq_left h.le, truncToInt_of_nonneg (mul_pos hW' h1).le,
      truncToInt_of_nonneg (mul_pos hH' h1).le]
  · rw [min_eq_right (not_lt.mp h), truncToInt_of_nonneg (mul_pos hW' h2).le,
      truncToInt_of_nonneg (mul_pos hH' h2).le]

/-- For an integer bounding box the planned size is given by integer divisions. -/
theorem CalculateDimensionsExact_int (W H mw mh : Int) (hW : 0 < W) (hH : 0 < H)
    (hmw : 0 < mw) (hmh : 0 < mh) :
    CalculateDimensionsExact ⟨W, H⟩ mw mh =
      if mw * H < mh * W then ⟨mw, H * mw / W⟩ else ⟨W * mh / H, mh⟩ := by
  have hW' : (0 : ℚ) < W := by exact_mod_cast hW
  have hH' : (0 : ℚ) < H := by exact_mod_cast hH
  have hmw' : (0 : ℚ) < mw := by exact_mod_cast hmw
  have hmh' : (0 : ℚ) < mh := by exact_mod_cast hmh
  have key : ((mw : ℚ) / W < (mh : ℚ) / H) ↔ mw * H < mh * W := by
    rw [div_lt_div_iff₀ hW' hH']
    exact_mod_cast Iff.rfl
  have fl : ∀ a b : Int, 0 < b → ⌊(a : ℚ) / (b : ℚ)⌋ = a / b := by
    intro a b hb
    lift b to ℕ using hb.le
    exact_mod_cast Rat.floor_intCast_div_natCast a b
  rw [CalculateDimensionsExact_floor W H mw mh hW hH hmw' hmh']
  by_cases h : mw * H < mh * W
  · rw [if_pos h, min_eq_left (key.mpr h).le]
    have e1 : (W : ℚ) * ((mw : ℚ) / W) = ((mw : Int) : ℚ) := by field_simp
    have e2 : (H : ℚ) * ((mw : ℚ) / W) = ((H * mw : Int) : ℚ) / (W : ℚ) := by
      push_cast; ring
    rw [e1, e2, fl _ _ hW, Int.floor_intCast]
  · rw [if_neg h, min_eq_right (not_lt.mp (fun hh => h (key.mp hh)))]
    have e1 : (H : ℚ) * ((mh : ℚ) / H) = ((mh : Int) : ℚ) := by field_simp
    have e2 : (W : ℚ) * ((mh : ℚ) / H) = ((W * mh : Int) : ℚ) / (H : ℚ) := by
      push_cast; ring
    rw [e1, e2, fl _ _ hH, Int.floor_intCast]

/-- The planned size on the 960x540 canvas, by integer divisions. -/
theorem CalculateDimensionsExact_canvas (W H : Int) (hW : 0 < W) (hH : 0 < H) :
    CalculateDimensionsExact ⟨W, H⟩ 960 540 =
      if 960 * H < 540 * W then ⟨960, H * 960 / W⟩ else ⟨W * 540 / H, 540⟩ := by
  have h := CalculateDimensionsExact_int W H 960 540 hW hH (by decide) (by decide)
  simpa using h

theorem CalculateDimensionsExact_canvas_le (W H : Int) (hW : 0 < W) (hH : 0 < H) :
    (CalculateDimensionsExact ⟨W, H⟩ 960 540).X ≤ 960 ∧
      (CalculateDimensionsExact ⟨W, H⟩ 960 540).Y ≤ 540 := by
  rw [CalculateDimensionsExact_canvas W H hW hH]
  split_ifs with h
  · refine ⟨le_refl _, ?_⟩
    have : H * 960 / W < 540 := Int.ediv_lt_of_lt_mul hW (by linarith)
    exact this.le
  · refine ⟨?_, le_refl _⟩
    exact Int.ediv_le_of_le_mul hH (by linarith)

theorem CalculateDimensionsExact_canvas_nonneg (W H : Int) (hW : 0 < W) (hH : 0 < H) :
    0 ≤ (CalculateDimensionsExact ⟨W, H⟩ 960 540).X ∧
      0 ≤ (CalculateDimensionsExact ⟨W, H⟩ 960 540).Y := by
  rw [CalculateDimensionsExact_canvas W H hW hH]
  split_ifs with h
  · exact ⟨by norm_num, Int.ediv_nonneg (by positivity) hW.le⟩
  · exact ⟨Int.ediv_nonneg (by positivity) hH.le, by norm_num⟩

/-- Truncating and flooring division by two agree on a non-negative padding,
and the padding splits into two halves that differ by at most one pixel. -/
theorem tdiv_two_split (d : Int) (hd : 0 ≤ d) :
    Int.tdiv d 2 = d / 2 ∧ 0 ≤ Int.tdiv d 2 ∧
      (d - Int.tdiv d 2 = Int.tdiv d 2 ∨ d - Int.tdiv d 2 = Int.tdiv d 2 + 1) ∧
      (d - Int.tdiv d 2 = Int.tdiv d 2 + 1 ↔ d % 2 = 1) := by
  have e : Int.tdiv d 2 = d / 2 := Int.tdiv_eq_ediv hd (by decide)
  rw [e]
  refine ⟨rfl, by omega, by omega, by omega⟩


/-! ## The claims on the planned size -/

/-- C1: for every source size with positive width and height, the size that
`CalculateDimensions` plans for the 960x540 box has width at most 960 and
height at most 540, in the exact reading of the arithmetic and in `float32`. -/
theorem CalculateDimensions_fits_canvas (W H : Int) (hW : 0 < W) (hH : 0 < H) :
    ((CalculateDimensionsExact ⟨W, H⟩ 960 540).X ≤ 960 ∧
      (CalculateDimensionsExact ⟨W, H⟩ 960 540).Y ≤ 540) ∧
    ((CalculateDimensions ⟨W, H⟩ 960 540).X ≤ 960 ∧
      (CalculateDimensions ⟨W, H⟩ 960 540).Y ≤ 540) :=
  ⟨CalculateDimensionsExact_canvas_le W H hW hH, CalculateDimensions_canvas_le W H hW hH⟩

theorem CalculateDimensions_fits_canvas_witness :
    ((CalculateDimensionsExact ⟨4000, 3000⟩ 960 540).X ≤ 960 ∧
      (CalculateDimensionsExact ⟨4000, 3000⟩ 960 540).Y ≤ 540) ∧
    ((CalculateDimensions ⟨4000, 3000⟩ 960 540).X ≤ 960 ∧
      (CalculateDimensions ⟨4000, 3000⟩ 960 540).Y ≤ 540) :=
  CalculateDimensions_fits_canvas 4000 3000 (by decide) (by decide)

/-- C2, as the spec states it, fails: for the source 1248x832 the exactly
scaled size is 810x540 and its floors are 810 and 540, but the `float32`
computation returns 809x540. -/
theorem CalculateDimensions_not_floor_of_exact :
    CalculateDimensions ⟨1248, 832⟩ 960 540 = ⟨809, 540⟩ ∧
      ⌊((1248 : Int) : ℚ) * min (960 / ((1248 : Int) : ℚ)) (540 / ((832 : Int) : ℚ))⌋ = 810 ∧
      ⌊((832 : Int) : ℚ) * min (960 / ((1248 : Int) : ℚ)) (540 / ((832 : Int) : ℚ))⌋ = 540 ∧
      CalculateDimensions ⟨1248, 832⟩ 960 540 ≠
        ⟨⌊((1248 : Int) : ℚ) * min (960 / ((1248 : Int) : ℚ)) (540 / ((832 : Int) : ℚ))⌋,
         ⌊((832 : Int) : ℚ) * min (960 / ((1248 : Int) : ℚ)) (540 / ((832 : Int) : ℚ))⌋⟩ ∧
      ¬ (((1248 : Int) : ℚ) * min (960 / ((1248 : Int) : ℚ)) (540 / ((832 : Int) : ℚ)) - 1 <
        ((CalculateDimensions ⟨1248, 832⟩ 960 540).X : ℚ)) := by
  have e1 : ((1248 : Int) : ℚ) * min (960 / ((1248 : Int) : ℚ)) (540 / ((832 : Int) : ℚ)) =
      810 := by norm_num
  have e2 : ((832 : Int) : ℚ) * min (960 / ((1248 : Int) : ℚ)) (540 / ((832 : Int) : ℚ)) =
      540 := by norm_num
  have f1 : ⌊(810 : ℚ)⌋ = 810 := by rw [Int.floor_eq_iff]; norm_num
  have f2 : ⌊(540 : ℚ)⌋ = 540 := by rw [Int.floor_eq_iff]; norm_num
  rw [e1, e2, f1, f2, CalculateDimensions_1248_832]
  refine ⟨rfl, rfl, rfl, by decide, by norm_num⟩

/-- C2, amended: for a positive source size and a bounding box of between 1
and 65536 pixels a side, with `s = min (maxW / W) (maxH / H)` in exact
arithmetic, each planned size differs from the floor of the exactly scaled
size by at most one pixel, and lies between the exactly scaled size minus one
pixel and a tenth, and that size plus a tenth. -/
theorem CalculateDimensions_within_one_pixel (W H : Int) (maxW maxH : ℚ) (hW : 0 < W)
    (hH : 0 < H) (hmw : 1 ≤ maxW) (hmh : 1 ≤ maxH) (bw : maxW ≤ 65536) (bh : maxH ≤ 65536) :
    (⌊(W : ℚ) * min (maxW / (W : ℚ)) (maxH / (H : ℚ))⌋ - 1 ≤
        (CalculateDimensions ⟨W, H⟩ maxW maxH).X ∧
      (CalculateDimensions ⟨W, H⟩ maxW maxH).X ≤
        ⌊(W : ℚ) * min (maxW / (W : ℚ)) (maxH / (H : ℚ))⌋ + 1 ∧
      (W : ℚ) * min (maxW / (W : ℚ)) (maxH / (H : ℚ)) - 1 - 1 / 10 <
        ((CalculateDimensions ⟨W, H⟩ maxW maxH).X : ℚ) ∧
      ((CalculateDimensions ⟨W, H⟩ maxW maxH).X : ℚ) ≤
        (W : ℚ) * min (maxW / (W : ℚ)) (maxH / (H : ℚ)) + 1 / 10) ∧
    (⌊(H : ℚ) * min (maxW / (W : ℚ)) (maxH / (H : ℚ))⌋ - 1 ≤
        (CalculateDimensions ⟨W, H⟩ maxW maxH).Y ∧
      (CalculateDimensions ⟨W, H⟩ maxW maxH).Y ≤
        ⌊(H : ℚ) * min (maxW / (W : ℚ)) (maxH / (H : ℚ))⌋ + 1 ∧
      (H : ℚ) * min (maxW / (W : ℚ)) (maxH / (H : ℚ)) - 1 - 1 / 10 <
        ((CalculateDimensions ⟨W, H⟩ maxW maxH).Y : ℚ) ∧
      ((CalculateDimensions ⟨W, H⟩ maxW maxH).Y : ℚ) ≤
        (H : ℚ) * min (maxW / (W : ℚ)) (maxH / (H : ℚ)) + 1 / 10) := by
  obtain ⟨⟨a1, a2, -, -, a3, a4⟩, ⟨b1, b2, -, -, b3, b4⟩⟩ :=
    CalculateDimensions_near W H maxW maxH hW hH (by linarith) (by linarith) bw bh
  exact ⟨⟨a1, a2, a3, a4⟩, ⟨b1, b2, b3, b4⟩⟩

theorem CalculateDimensions_within_one_pixel_witness :
    ⌊((1248 : Int) : ℚ) * min (960 / ((1248 : Int) : ℚ)) (540 / ((832 : Int) : ℚ))⌋ - 1 ≤
        (CalculateDimensions ⟨1248, 832⟩ 960 540).X ∧
      (CalculateDimensions ⟨1248, 832⟩ 960 540).X ≤
        ⌊((1248 : Int) : ℚ) * min (960 / ((1248 : Int) : ℚ)) (540 / ((832 : Int) : ℚ))⌋ + 1 :=
  ⟨(CalculateDimensions_within_one_pixel 1248 832 960 540 (by decide) (by decide)
      (by norm_num) (by norm_num) (by norm_num) (by norm_num)).1.1,
    (CalculateDimensions_within_one_pixel 1248 832 960 540 (by decide) (by decide)
      (by norm_num) (by norm_num) (by norm_num) (by norm_num)).1.2.1⟩

/-- C6: for the size planned on the 960x540 canvas from a positive source
size, in the exact reading of the arithmetic or in `float32`, the offsets are
the halves `(960 - width) / 2` and `(540 - height) / 2` with truncation, both
are non-negative, and the padding left on the opposite side equals the offset
or exceeds it by one, by one exactly when the difference is odd. -/
theorem centering_offsets (W H : Int) (hW : 0 < W) (hH : 0 < H) (n : Point)
    (hn : n = CalculateDimensionsExact ⟨W, H⟩ 960 540 ∨
      n = CalculateDimensions ⟨W, H⟩ 960 540) :
    (offsetX n.X = Int.tdiv (960 - n.X) 2 ∧ offsetX n.X = (960 - n.X) / 2 ∧
      0 ≤ offsetX n.X ∧
      (960 - n.X - offsetX n.X = offsetX n.X ∨ 960 - n.X - offsetX n.X = offsetX n.X + 1) ∧
      (960 - n.X - offsetX n.X = offsetX n.X + 1 ↔ (960 - n.X) % 2 = 1)) ∧
    (offsetY n.Y = Int.tdiv (540 - n.Y) 2 ∧ offsetY n.Y = (540 - n.Y) / 2 ∧
      0 ≤ offsetY n.Y ∧
      (540 - n.Y - offsetY n.Y = offsetY n.Y ∨ 540 - n.Y - offsetY n.Y = offsetY n.Y + 1) ∧
      (540 - n.Y - offsetY n.Y = offsetY n.Y + 1 ↔ (540 - n.Y) % 2 = 1)) := by
  have hle : n.X ≤ 960 ∧ n.Y ≤ 540 := by
    rcases hn with hn | hn
    · rw [hn]; exact CalculateDimensionsExact_canvas_le W H hW hH
    · rw [hn]; exact CalculateDimensions_canvas_le W H hW hH
  have hx := tdiv_two_split (960 - n.X) (by have := hle.1; omega)
  have hy := tdiv_two_split (540 - n.Y) (by have := hle.2; omega)
  exact ⟨⟨rfl, hx.1, hx.2.1, hx.2.2.1, hx.2.2.2⟩, ⟨rfl, hy.1, hy.2.1, hy.2.2.1, hy.2.2.2⟩⟩

theorem centering_offsets_witness :
    (0 ≤ offsetX (CalculateDimensionsExact ⟨1000, 333⟩ 960 540).X ∧
      0 ≤ offsetY (CalculateDimensionsExact ⟨1000, 333⟩ 960 540).Y) ∧
    (0 ≤ offsetX (CalculateDimensions ⟨1000, 333⟩ 960 540).X ∧
      0 ≤ offsetY (CalculateDimensions ⟨1000, 333⟩ 960 540).Y) :=
  ⟨⟨(centering_offsets 1000 333 (by decide) (by decide) _ (Or.inl rfl)).1.2.2.1,
    (centering_offsets 1000 333 (by decide) (by decide) _ (Or.inl rfl)).2.2.2.1⟩,
   ⟨(centering_offsets 1000 333 (by decide) (by decide) _ (Or.inr rfl)).1.2.2.1,
    (centering_offsets 1000 333 (by decide) (by decide) _ (Or.inr rfl)).2.2.2.1⟩⟩

/-- In the exact reading the source 1000x333 is planned as 960x319, with
offsets 0 and 110 and a bottom padding of 111: the odd difference leaves one
pixel more below. -/
theorem offsets_odd_example :
    CalculateDimensionsExact ⟨1000, 333⟩ 960 540 = ⟨960, 319⟩ ∧
      offsetX 960 = 0 ∧ offsetY 319 = 110 ∧ 540 - 319 - offsetY 319 = 111 := by
  refine ⟨?_, by decide, by decide, by decide⟩
  rw [CalculateDimensionsExact_canvas 1000 333 (by decide) (by decide)]
  decide


/-! ## Lemmas on strings and on `ditherImage` -/

theorem ToLower_ascii (U : CaseTable) (s : String) (h : ∀ c ∈ s.data, c.toNat < 128) :
    ToLower U s = ⟨s.data.map Char.toLower⟩ := by
  unfold ToLower
  congr 1
  exact List.map_congr_left (fun c hc => U.lower_ascii c (h c hc))

theorem toLower_toLower (c : Char) : c.toLower.toLower = c.toLower := by
  by_cases h : c.toNat ≥ 65 ∧ c.toNat ≤ 90
  · have hc : c = Char.ofNat c.toNat := (Char.ofNat_toNat c).symm
    obtain ⟨h1, h2⟩ := h
    generalize c.toNat = n at hc h1 h2
    subst hc
    interval_cases n <;> decide
  · have hid : c.toLower = c := by
      unfold Char.toLower
      simp only [h, if_false]
    rw [hid, hid]

theorem toLower_toNat_lt (c : Char) (h : c.toNat < 128) : c.toLower.toNat < 128 := by
  by_cases hu : c.toNat ≥ 65 ∧ c.toNat ≤ 90
  · have hc : c = Char.ofNat c.toNat := (Char.ofNat_toNat c).symm
    obtain ⟨h1, h2⟩ := hu
    generalize c.toNat = n at hc h1 h2
    subst hc
    interval_cases n <;> decide
  · have hid : c.toLower = c := by
      unfold Char.toLower
      simp only [hu, if_false]
    rw [hid]; exact h

theorem isUpper_toNat_lt (c : Char) (h : c.isUpper = true) : c.toNat < 128 := by
  unfold Char.isUpper at h
  simp only [Bool.and_eq_true, decide_eq_true_eq] at h
  have h2 : c.val ≤ 90 := h.2
  have : c.val.toNat ≤ 90 := by
    have := UInt32.le_def.mp h2
    simpa using this
  show c.val.toNat < 128
  omega

/-- The two cases of one ASCII letter are the same letter for every table. -/
theorem sameLetter_of_asciiCasePair (U : CaseTable) (c d : Char)
    (h : asciiCasePair c d = true) : sameLetter U c d := by
  unfold asciiCasePair at h
  unfold sameLetter
  simp only [Bool.or_eq_true, Bool.and_eq_true, beq_iff_eq] at h
  rcases h with (h | ⟨hu, h⟩) | ⟨hu, h⟩
  · rw [h]
  · have hc := isUpper_toNat_lt c hu
    rw [h, U.lower_ascii c hc, U.lower_ascii _ (toLower_toNat_lt c hc), toLower_toLower]
  · have hd := isUpper_toNat_lt d hu
    rw [h, U.lower_ascii d hd, U.lower_ascii _ (toLower_toNat_lt d hd), toLower_toLower]

theorem ToLower_eq_of_differOnlyInCase (U : CaseTable) (a b : String)
    (h : differOnlyInCase U a b) : ToLower U a = ToLower U b := by
  have key : ∀ l m : List Char, List.Forall₂ (sameLetter U) l m →
      l.map U.lower = m.map U.lower := by
    intro l m hlm
    induction hlm with
    | nil => rfl
    | cons hcd _ ih =>
      unfold sameLetter at hcd
      simp only [List.map_cons, hcd, ih]
  unfold ToLower
  rw [key a.data b.data h]

/-- The kernel that `ditherImage` selects depends on the name only through
its lowercase form. -/
theorem ditherImage_Matrix_congr (U : CaseTable) (a b : String) (s : ℚ) (serp : Bool)
    (h : ToLower U a = ToLower U b) :
    (ditherImage U a s serp).Matrix = (ditherImage U b s serp).Matrix := by
  unfold ditherImage
  simp only [h]

theorem ToLower_ident (U : CaseTable) (k : ErrorDiffusionMatrix) :
    ToLower U k.ident = ⟨k.ident.data.map Char.toLower⟩ :=
  ToLower_ascii U k.ident (by cases k <;> decide)

theorem ditherImage_ident (U : CaseTable) (k : ErrorDiffusionMatrix) (s : ℚ) (serp : Bool) :
    (ditherImage U k.ident s serp).Matrix = some (ErrorDiffusionStrength k s) := by
  have h := ToLower_ident U k
  unfold ditherImage
  simp only [h]
  cases k <;> simp [ErrorDiffusionMatrix.ident]

theorem ditherImage_unknown (U : CaseTable) (name : String) (s : ℚ) (serp : Bool)
    (h : ∀ k : ErrorDiffusionMatrix, ToLower U name ≠ ToLower U k.ident) :
    (ditherImage U name s serp).Matrix = none := by
  have h1 := h .FloydSteinberg
  have h2 := h .JarvisJudiceNinke
  have h3 := h .Stucki
  have h4 := h .Atkinson
  have h5 := h .Sierra
  have h6 := h .Sierra2
  have h7 := h .SierraLite
  have h8 := h .StevenPigeon
  have h9 := h .Burkes
  have h10 := h .FalseFloydSteinberg
  rw [ToLower_ident, show (⟨ErrorDiffusionMatrix.FloydSteinberg.ident.data.map Char.toLower⟩ :
    String) = "floydsteinberg" from by decide] at h1
  rw [ToLower_ident, show (⟨ErrorDiffusionMatrix.JarvisJudiceNinke.ident.data.map
    Char.toLower⟩ : String) = "jarvisjudiceninke" from by decide] at h2
  rw [ToLower_ident, show (⟨ErrorDiffusionMatrix.Stucki.ident.data.map Char.toLower⟩ :
    String) = "stucki" from by decide] at h3
  rw [ToLower_ident, show (⟨ErrorDiffusionMatrix.Atkinson.ident.data.map Char.toLower⟩ :
    String) = "atkinson" from by decide] at h4
  rw [ToLower_ident, show (⟨ErrorDiffusionMatrix.Sierra.ident.data.map Char.toLower⟩ :
    String) = "sierra" from by decide] at h5
  rw [ToLower_ident, show (⟨ErrorDiffusionMatrix.Sierra2.ident.data.map Char.toLower⟩ :
    String) = "sierra2" from by decide] at h6
  rw [ToLower_ident, show (⟨ErrorDiffusionMatrix.SierraLite.ident.data.map Char.toLower⟩ :
    String) = "sierralite" from by decide] at h7
  rw [ToLower_ident, show (⟨ErrorDiffusionMatrix.StevenPigeon.ident.data.map Char.toLower⟩ :
    String) = "stevenpigeon" from by decide] at h8
  rw [ToLower_ident, show (⟨ErrorDiffusionMatrix.Burkes.ident.data.map Char.toLower⟩ :
    String) = "burkes" from by decide] at h9
  rw [ToLower_ident, show (⟨ErrorDiffusionMatrix.FalseFloydSteinberg.ident.data.map
    Char.toLower⟩ : String) = "falsefloydsteinberg" from by decide] at h10
  unfold ditherImage
  simp only [h1, h2, h3, h4, h5, h6, h7, h8, h9, h10, if_false]

/-! ## The claims on `ditherImage` -/

/-- C9, as the spec states it, fails: the third palette entry is not a gray
strictly between black and white. -/
theorem palette_has_no_mid_gray :
    ¬ ∃ (U : CaseTable) (y : Nat), 0 < y ∧ y < 0xffff ∧
      (ditherImage U "Atkinson" (9 / 10) false).palette =
        [Color.Black, Color.White, Color.Gray16 y, Color.Transparent] := by
  rintro ⟨U, y, hy, -, h⟩
  have h3 : Color.Gray16 0 = Color.Gray16 y := by
    have := congrArg (fun l => l.get? 2) h
    simpa [ditherImage] using this
  injection h3 with h0
  omega

/-- C9, amended: for every algorithm name, strength and serpentine flag the
palette is the same four entries: black, white, the zero `Gray16`, which is
black again, and transparent. -/
theorem palette_fixed (U : CaseTable) (ditherAlg : String) (ditherStrength : ℚ)
    (ditherSerpentine : Bool) :
    (ditherImage U ditherAlg ditherStrength ditherSerpentine).palette =
        [Color.Black, Color.White, Color.Gray16 0, Color.Transparent] ∧
      Color.Gray16 0 = Color.Black ∧ Color.Gray16 0 ≠ Color.White ∧
      Color.Black = Color.Gray16 0 ∧ Color.White = Color.Gray16 0xffff ∧
      Color.Transparent = Color.Alpha16 0 :=
  ⟨rfl, rfl, by decide, rfl, rfl, rfl⟩

/-- C10: whatever the case table, a name whose lowercase form is that of a
kernel identifier selects that kernel scaled by the strength; two names that
differ only in letter case select the same kernel, and the two cases of an
ASCII letter count as the same letter; every name of the list `ditherAlgs` of
`main` is the identifier of a kernel and selects it; any other name leaves
the kernel unset; the serpentine flag is passed through. -/
theorem ditherImage_kernel_selection (U : CaseTable) (name : String) (strength : ℚ)
    (serpentine : Bool) :
    (∀ k : ErrorDiffusionMatrix, ToLower U name = ToLower U k.ident →
      (ditherImage U name strength serpentine).Matrix =
        some (ErrorDiffusionStrength k strength)) ∧
    (∀ other : String, differOnlyInCase U name other →
      (ditherImage U other strength serpentine).Matrix =
        (ditherImage U name strength serpentine).Matrix) ∧
    (∀ c d : Char, asciiCasePair c d = true → sameLetter U c d) ∧
    (∀ alg ∈ ditherAlgs, ∃ k : ErrorDiffusionMatrix, k.ident = alg ∧
      (ditherImage U alg strength serpentine).Matrix =
        some (ErrorDiffusionStrength k strength)) ∧
    (∀ k : ErrorDiffusionMatrix, k.ident ∈ ditherAlgs) ∧
    ((∀ k : ErrorDiffusionMatrix, ToLower U name ≠ ToLower U k.ident) →
      (ditherImage U name strength serpentine).Matrix = none) ∧
    (ditherImage U name strength serpentine).Serpentine = serpentine := by
  refine ⟨?_, ?_, sameLetter_of_asciiCasePair U, ?_, ?_, ?_, rfl⟩
  · intro k hk
    rw [ditherImage_Matrix_congr U name k.ident strength serpentine hk]
    exact ditherImage_ident U k strength serpentine
  · intro other h
    exact (ditherImage_Matrix_congr U name other strength serpentine
      (ToLower_eq_of_differOnlyInCase U name other h)).symm
  · intro alg halg
    have hmem : alg ∈ (([.FloydSteinberg, .JarvisJudiceNinke, .Stucki, .Atkinson, .Sierra,
        .Sierra2, .SierraLite, .StevenPigeon, .Burkes, .FalseFloydSteinberg] :
        List ErrorDiffusionMatrix).map ErrorDiffusionMatrix.ident) := by
      have e : ditherAlgs = (([.FloydSteinberg, .JarvisJudiceNinke, .Stucki, .Atkinson,
          .Sierra, .Sierra2, .SierraLite, .StevenPigeon, .Burkes, .FalseFloydSteinberg] :
          List ErrorDiffusionMatrix).map ErrorDiffusionMatrix.ident) := by decide
      rw [← e]; exact halg
    obtain ⟨k, -, hk⟩ := List.mem_map.mp hmem
    exact ⟨k, hk, hk ▸ ditherImage_ident U k strength serpentine⟩
  · intro k
    cases k <;> decide
  · exact ditherImage_unknown U name strength serpentine

theorem ditherImage_kernel_selection_witness :
    (ditherImage CaseTable.ascii "ATKINSON" (9 / 10) true).Matrix =
        some (ErrorDiffusionStrength .Atkinson (9 / 10)) ∧
      (ditherImage CaseTable.ascii "atkinson" (9 / 10) true).Matrix =
        (ditherImage CaseTable.ascii "ATKINSON" (9 / 10) true).Matrix ∧
      (ditherImage CaseTable.ascii "ordered" (9 / 10) true).Matrix = none :=
  ⟨(ditherImage_kernel_selection CaseTable.ascii "ATKINSON" (9 / 10) true).1 .Atkinson
      (by decide),
    (ditherImage_kernel_selection CaseTable.ascii "ATKINSON" (9 / 10) true).2.1 "atkinson"
      (by unfold differOnlyInCase sameLetter; decide),
    (ditherImage_kernel_selection CaseTable.ascii "ordered" (9 / 10) true).2.2.2.2.2.1
      (by intro k; cases k <;> decide)⟩

/-- A name written with the Kelvin sign (U+212A) in place of `k` selects
Atkinson, for every case table that lowers the Kelvin sign to `k` as
`unicode.ToLower` does. -/
theorem kelvin_sign_selects_Atkinson (U : CaseTable)
    (hK : U.lower (Char.ofNat 0x212A) = 'k') (s : ℚ) (serp : Bool) :
    (ditherImage U ⟨['a', 't', Char.ofNat 0x212A, 'i', 'n', 's', 'o', 'n']⟩ s serp).Matrix =
      some (ErrorDiffusionStrength .Atkinson s) := by
  have ha : ∀ c : Char, c.toNat < 128 → U.lower c = c.toLower := U.lower_ascii
  have e3 : ToLower U ErrorDiffusionMatrix.Atkinson.ident = "atkinson" := by
    rw [ToLower_ident]; decide
  have e5 : ToLower U ⟨['a', 't', Char.ofNat 0x212A, 'i', 'n', 's', 'o', 'n']⟩ =
      "atkinson" := by
    unfold ToLower
    simp only [List.map_cons, List.map_nil, hK, ha 'a' (by decide), ha 't' (by decide),
      ha 'i' (by decide), ha 'n' (by decide), ha 's' (by decide), ha 'o' (by decide)]
    decide
  rw [ditherImage_Matrix_congr U _ ErrorDiffusionMatrix.Atkinson.ident s serp
    (by rw [e5, e3])]
  exact ditherImage_ident U .Atkinson s serp

/-! ## The claims on the daemons -/

/-- C8, at the default value of the flag `input`: the glob has no `/`, the
index is `-1`, and the slice expression of both daemons panics. -/
theorem watch_directory_panics_on_default_input :
    Contains defaultInput '*' = true ∧ LastIndex defaultInput '/' = -1 ∧
      watcherDaemonInput defaultInput = none ∧ slideShowDaemonInput defaultInput = none ∧
      watcherDaemonInput "in/*.jpg" = some "in" := by
  decide


/-! ## Lemmas on one iteration of `processImages` -/

/-- An iteration that has decoded and prepared the image decides on the
output path alone. -/
theorem processFile_reached (U : CaseTable) (env : Env) (o : Options) (outdir : String)
    (files : List String) (filepath ext : String) (img p : Point)
    (hext : extOf U filepath = some ext) (hs : supported ext = true) (hf : filepath ∈ files)
    (himg : (if ext = ".jpg" ∨ ext = ".jpeg" then env.jpegDecode filepath
        else env.pngDecode filepath) = some img)
    (hp : prepare U o img = some p) :
    processFile U env o outdir files filepath =
      if outpathOf outdir (baseNameOf o.dither o.ditherAlg filepath ext)
          (CalculateDimensions p 960 540) ∈ files then
        .skipped (outpathOf outdir (baseNameOf o.dither o.ditherAlg filepath ext)
          (CalculateDimensions p 960 540))
      else if env.createOk (outpathOf outdir (baseNameOf o.dither o.ditherAlg filepath ext)
          (CalculateDimensions p 960 540)) = false then .fatal
      else if env.encodeOk (outpathOf outdir (baseNameOf o.dither o.ditherAlg filepath ext)
          (CalculateDimensions p 960 540)) = false then
        .encodeFailed (outpathOf outdir (baseNameOf o.dither o.ditherAlg filepath ext)
          (CalculateDimensions p 960 540))
      else
        .created (outpathOf outdir (baseNameOf o.dither o.ditherAlg filepath ext)
          (CalculateDimensions p 960 540)) := by
  unfold processFile
  simp only [hext, hs, himg, hf, hp]
  simp

/-- The ways an iteration can go, with what decides each. -/
theorem processFile_cases (U : CaseTable) (env : Env) (o : Options) (outdir : String)
    (files : List String) (filepath : String) :
    (processFile U env o outdir files filepath = .panicked) ∨
    (∃ ext, extOf U filepath = some ext ∧ supported ext = false ∧
      processFile U env o outdir files filepath = .unsupported) ∨
    (processFile U env o outdir files filepath = .fatal) ∨
    (∃ ext img p, extOf U filepath = some ext ∧ supported ext = true ∧ filepath ∈ files ∧
      (if ext = ".jpg" ∨ ext = ".jpeg" then env.jpegDecode filepath
        else env.pngDecode filepath) = some img ∧
      prepare U o img = some p) := by
  cases hext : extOf U filepath with
  | none => exact Or.inl (by unfold processFile; simp only [hext])
  | some ext =>
    by_cases hs : supported ext = false
    · exact Or.inr (Or.inl ⟨ext, rfl, hs, by unfold processFile; simp only [hext, hs, if_true]⟩)
    · by_cases hf : filepath ∈ files
      · cases himg : (if ext = ".jpg" ∨ ext = ".jpeg" then env.jpegDecode filepath
            else env.pngDecode filepath) with
        | none =>
          refine Or.inr (Or.inr (Or.inl ?_))
          unfold processFile
          simp only [hext, hs, if_false, hf, not_true_eq_false, himg]
          simp
        | some img =>
          cases hp : prepare U o img with
          | none =>
            refine Or.inl ?_
            unfold processFile
            simp only [hext, hs, if_false, hf, not_true_eq_false, himg, hp]
            simp
          | some p =>
            exact Or.inr (Or.inr (Or.inr ⟨ext, img, p, rfl, by simpa using hs, hf, himg, hp⟩))
      · refine Or.inr (Or.inr (Or.inl ?_))
        unfold processFile
        simp only [hext, hs, if_false, hf, not_false_eq_true, if_true]
        simp

/-- What is known when an iteration ends at or after the test of the output
path. -/
theorem processFile_output (U : CaseTable) (env : Env) (o : Options) (outdir : String)
    (files : List String) (filepath x : String)
    (h : processFile U env o outdir files filepath = .created x ∨
      processFile U env o outdir files filepath = .skipped x ∨
      processFile U env o outdir files filepath = .encodeFailed x) :
    ∃ ext img p, extOf U filepath = some ext ∧ supported ext = true ∧ filepath ∈ files ∧
      (if ext = ".jpg" ∨ ext = ".jpeg" then env.jpegDecode filepath
        else env.pngDecode filepath) = some img ∧
      prepare U o img = some p ∧
      x = outpathOf outdir (baseNameOf o.dither o.ditherAlg filepath ext)
        (CalculateDimensions p 960 540) ∧
      (processFile U env o outdir files filepath = .skipped x → x ∈ files) ∧
      (processFile U env o outdir files filepath ≠ .skipped x → x ∉ files) := by
  rcases processFile_cases U env o outdir files filepath with
    hp | ⟨ext, -, -, hp⟩ | hp | ⟨ext, img, p, hext, hs, hf, himg, hprep⟩
  · rw [hp] at h; simp at h
  · rw [hp] at h; simp at h
  · rw [hp] at h; simp at h
  · have e := processFile_reached U env o outdir files filepath ext img p hext hs hf himg hprep
    refine ⟨ext, img, p, hext, hs, hf, himg, hprep, ?_⟩
    rw [e] at h ⊢
    generalize outpathOf outdir (baseNameOf o.dither o.ditherAlg filepath ext)
      (CalculateDimensions p 960 540) = y at h ⊢
    by_cases hm : y ∈ files
    · simp only [hm, if_true] at h ⊢
      have hx : x = y := by
        rcases h with h | h | h
        · simp at h
        · injection h with h; exact h.symm
        · simp at h
      subst hx
      exact ⟨rfl, fun _ => hm, fun hc => absurd rfl hc⟩
    · simp only [hm, if_false] at h ⊢
      have hx : x = y := by
        by_cases hc : env.createOk y = false
        · simp [hc] at h
        · by_cases he : env.encodeOk y = false
          · simp only [hc, he, if_false, if_true] at h
            rcases h with h | h | h
            · simp at h
            · simp at h
            · injection h with h; exact h.symm
          · simp only [hc, he, if_false] at h
            rcases h with h | h | h
            · injection h with h; exact h.symm
            · simp at h
            · simp at h
      subst hx
      refine ⟨rfl, ?_, fun _ => hm⟩
      intro hc
      by_cases hc1 : env.createOk x = false
      · simp [hc1] at hc
      · by_cases he : env.encodeOk x = false
        · simp [hc1, he] at hc
        · simp [hc1, he] at hc

/-- Once an input has an output path on disk, every later iteration on it, on
a larger set of files, skips it. -/
theorem processFile_skips_later (U : CaseTable) (env : Env) (o : Options) (outdir : String)
    (files later : List String) (filepath x : String)
    (h : processFile U env o outdir files filepath = .created x ∨
      processFile U env o outdir files filepath = .skipped x ∨
      processFile U env o outdir files filepath = .encodeFailed x)
    (hsub : ∀ y ∈ files, y ∈ later) (hx : x ∈ later) :
    processFile U env o outdir later filepath = .skipped x := by
  obtain ⟨ext, img, p, hext, hs, hf, himg, hprep, hx', -, -⟩ :=
    processFile_output U env o outdir files filepath x h
  rw [processFile_reached U env o outdir later filepath ext img p hext hs (hsub _ hf) himg
    hprep, ← hx', if_pos hx]

theorem processFile_unsupported_any (U : CaseTable) (env : Env) (o : Options)
    (outdir : String) (files later : List String) (filepath : String)
    (h : processFile U env o outdir files filepath = .unsupported) :
    processFile U env o outdir later filepath = .unsupported := by
  rcases processFile_cases U env o outdir files filepath with
    hp | ⟨ext, hext, hs, -⟩ | hp | ⟨ext, img, p, hext, hs, hf, himg, hprep⟩
  · rw [hp] at h; simp at h
  · unfold processFile; simp only [hext, hs, if_true]
  · rw [hp] at h; simp at h
  · rw [processFile_reached U env o outdir files filepath ext img p hext hs hf himg hprep] at h
    split_ifs at h

/-! ## Lemmas on a whole call of `processImages` -/

/-- The files after a call are the files it wrote followed by the files
before it; the written paths are new and pairwise different, at most one per
match, and each is the output path of a match. -/
theorem processImages_written (U : CaseTable) (env : Env) (o : Options) (outdir : String)
    (paths : List String) :
    ∀ files : List String,
      (processImages U env o outdir paths files).files =
          (processImages U env o outdir paths files).written ++ files ∧
        (∀ x ∈ (processImages U env o outdir paths files).written, x ∉ files) ∧
        (processImages U env o outdir paths files).written.Nodup ∧
        (processImages U env o outdir paths files).written.length ≤ paths.length ∧
        (∀ x ∈ (processImages U env o outdir paths files).written,
          ∃ filepath ∈ paths, ∃ ext img p, extOf U filepath = some ext ∧
            (if ext = ".jpg" ∨ ext = ".jpeg" then env.jpegDecode filepath
              else env.pngDecode filepath) = some img ∧
            prepare U o img = some p ∧
            x = outpathOf outdir (baseNameOf o.dither o.ditherAlg filepath ext)
              (CalculateDimensions p 960 540)) := by
  induction paths with
  | nil =>
    intro files
    simp [processImages]
  | cons filepath rest ih =>
    intro files
    cases hp : processFile U env o outdir files filepath with
    | panicked => simp [processImages, hp]
    | fatal => simp [processImages, hp]
    | unsupported =>
      obtain ⟨h1, h2, h3, h4, h5⟩ := ih files
      have e : processImages U env o outdir (filepath :: rest) files =
          processImages U env o outdir rest files := by
        simp only [processImages, hp]
      rw [e]
      refine ⟨h1, h2, h3, by simp only [List.length_cons]; omega, ?_⟩
      intro x hx
      obtain ⟨f, hf, more⟩ := h5 x hx
      exact ⟨f, List.mem_cons_of_mem _ hf, more⟩
    | skipped y =>
      obtain ⟨h1, h2, h3, h4, h5⟩ := ih files
      have e : processImages U env o outdir (filepath :: rest) files =
          processImages U env o outdir rest files := by
        simp only [processImages, hp]
      rw [e]
      refine ⟨h1, h2, h3, by simp only [List.length_cons]; omega, ?_⟩
      intro x hx
      obtain ⟨f, hf, more⟩ := h5 x hx
      exact ⟨f, List.mem_cons_of_mem _ hf, more⟩
    | encodeFailed y =>
      obtain ⟨ext, img, p, hext, -, -, himg, hprep, hy, -, hnew⟩ :=
        processFile_output U env o outdir files filepath y (Or.inr (Or.inr hp))
      have hyf : y ∉ files := hnew (by rw [hp]; simp)
      have e : processImages U env o outdir (filepath :: rest) files =
          ⟨y :: files, [y], .fatalAfterCreate⟩ := by
        simp only [processImages, hp]
      rw [e]
      refine ⟨rfl, ?_, List.nodup_singleton y, by simp, ?_⟩
      · intro x hx
        rw [List.mem_singleton.mp hx]; exact hyf
      · intro x hx
        rw [List.mem_singleton.mp hx]
        exact ⟨filepath, List.mem_cons_self _ _, ext, img, p, hext, himg, hprep, hy⟩
    | created y =>
      obtain ⟨h1, h2, h3, h4, h5⟩ := ih (y :: files)
      obtain ⟨ext, img, p, hext, -, -, himg, hprep, hy, -, hnew⟩ :=
        processFile_output U env o outdir files filepath y (Or.inl hp)
      have hyf : y ∉ files := hnew (by rw [hp]; simp)
      have e : processImages U env o outdir (filepath :: rest) files =
          ⟨(processImages U env o outdir rest (y :: files)).files,
           (processImages U env o outdir rest (y :: files)).written ++ [y],
           (processImages U env o outdir rest (y :: files)).status⟩ := by
        simp only [processImages, hp]
      rw [e]
      refine ⟨?_, ?_, ?_, ?_, ?_⟩
      · simp only [h1, List.append_assoc, List.singleton_append]
      · intro x hx
        rcases List.mem_append.mp hx with hx | hx
        · exact fun hxf => h2 x hx (List.mem_cons_of_mem _ hxf)
        · rw [List.mem_singleton.mp hx]; exact hyf
      · rw [List.nodup_append]
        refine ⟨h3, List.nodup_singleton y, ?_⟩
        intro a ha hb
        rw [List.mem_singleton.mp hb] at ha
        exact h2 y ha (List.mem_cons_self _ _)
      · simp only [List.length_append, List.length_cons, List.length_nil]; omega
      · intro x hx
        rcases List.mem_append.mp hx with hx | hx
        · obtain ⟨f, hf, more⟩ := h5 x hx
          exact ⟨f, List.mem_cons_of_mem _ hf, more⟩
        · rw [List.mem_singleton.mp hx]
          exact ⟨filepath, List.mem_cons_self _ _, ext, img, p, hext, himg, hprep, hy⟩

/-- When the first call did not die in `jpeg.Encode`, a second call on the
files it left writes nothing, changes no file and ends the same way. -/
theorem processImages_again (U : CaseTable) (env : Env) (o : Options) (outdir : String)
    (paths : List String) :
    ∀ files : List String,
      (processImages U env o outdir paths files).status ≠ .fatalAfterCreate →
      processImages U env o outdir paths (processImages U env o outdir paths files).files =
        ⟨(processImages U env o outdir paths files).files, [],
         (processImages U env o outdir paths files).status⟩ := by
  induction paths with
  | nil => intro files _; simp [processImages]
  | cons filepath rest ih =>
    intro files hst
    cases hp : processFile U env o outdir files filepath with
    | panicked => simp [processImages, hp]
    | fatal => simp [processImages, hp]
    | encodeFailed y =>
      exfalso
      apply hst
      simp only [processImages, hp]
    | unsupported =>
      have e : processImages U env o outdir (filepath :: rest) files =
          processImages U env o outdir rest files := by
        simp only [processImages, hp]
      rw [e] at hst ⊢
      have hp2 := processFile_unsupported_any U env o outdir files
        (processImages U env o outdir rest files).files filepath hp
      rw [← ih files hst]
      simp only [processImages, hp2]
    | skipped y =>
      have e : processImages U env o outdir (filepath :: rest) files =
          processImages U env o outdir rest files := by
        simp only [processImages, hp]
      rw [e] at hst ⊢
      have hfiles := (processImages_written U env o outdir rest files).1
      obtain ⟨-, -, -, -, -, -, -, -, -, hold, -⟩ :=
        processFile_output U env o outdir files filepath y (Or.inr (Or.inl hp))
      have hy : y ∈ files := hold hp
      have hp2 := processFile_skips_later U env o outdir files
        (processImages U env o outdir rest files).files filepath y (Or.inr (Or.inl hp))
        (by intro z hz; rw [hfiles]; exact List.mem_append_right _ hz)
        (by rw [hfiles]; exact List.mem_append_right _ hy)
      rw [← ih files hst]
      simp only [processImages, hp2]
    | created y =>
      have e : processImages U env o outdir (filepath :: rest) files =
          ⟨(processImages U env o outdir rest (y :: files)).files,
           (processImages U env o outdir rest (y :: files)).written ++ [y],
           (processImages U env o outdir rest (y :: files)).status⟩ := by
        simp only [processImages, hp]
      rw [e] at hst ⊢
      have hst2 : (processImages U env o outdir rest (y :: files)).status ≠
          .fatalAfterCreate := hst
      have hfiles := (processImages_written U env o outdir rest (y :: files)).1
      have hp2 := processFile_skips_later U env o outdir files
        (processImages U env o outdir rest (y :: files)).files filepath y (Or.inl hp)
        (by intro z hz; rw [hfiles]
            exact List.mem_append_right _ (List.mem_cons_of_mem _ hz))
        (by rw [hfiles]; exact List.mem_append_right _ (List.mem_cons_self _ _))
      show processImages U env o outdir (filepath :: rest)
        (processImages U env o outdir rest (y :: files)).files = _
      rw [← ih (y :: files) hst2]
      simp only [processImages, hp2]

/-! ## Lemmas for examples -/

theorem prepare_plain (U : CaseTable) (alg : String) (s : ℚ) (serp : Bool) (q : Int)
    (W H : Int) (hHW : H ≤ W) :
    prepare U ⟨false, alg, s, serp, false, false, q⟩ ⟨W, H⟩ = some ⟨W, H⟩ := by
  unfold prepare forced orient
  simp only [Bool.false_eq_true, if_false, not_lt.mpr hHW, gt_iff_lt]

theorem prepare_dithered (U : CaseTable) (k : ErrorDiffusionMatrix) (s : ℚ) (serp : Bool)
    (q : Int) (W H : Int) (hHW : H ≤ W) :
    prepare U ⟨true, k.ident, s, serp, false, false, q⟩ ⟨W, H⟩ = some ⟨W, H⟩ := by
  unfold prepare forced orient Ditherer.Dither
  simp only [ditherImage_ident, Option.isSome_some, if_true, Bool.false_eq_true, if_false,
    not_lt.mpr hHW, gt_iff_lt]

theorem extOf_ascii (U : CaseTable) (filepath tail : String)
    (h : sliceFrom filepath (LastIndex filepath '.') = some tail)
    (ha : ∀ c ∈ tail.data, c.toNat < 128) :
    extOf U filepath = some ⟨tail.data.map Char.toLower⟩ := by
  unfold extOf
  rw [h, Option.map_some', ToLower_ascii U tail ha]

theorem extOf_none (U : CaseTable) (filepath : String)
    (h : sliceFrom filepath (LastIndex filepath '.') = none) : extOf U filepath = none := by
  unfold extOf
  rw [h, Option.map_none']

/-- With every file of the batch decoding to 1920x960, no dithering, and
`jpeg.Encode` failing on the output of `a.jpg` only: the first call creates
that output and dies; the second call skips `a.jpg` and writes the output of
`b.jpg`. -/
theorem runs_after_failed_encode (U : CaseTable) :
    processImages U
        ⟨fun _ => some ⟨1920, 960⟩, fun _ => none, fun _ => true,
          fun x => x != "output/a_960x480_0x30_resized.jpg"⟩
        ⟨false, "StevenPigeon", 9 / 10, false, false, false, 80⟩ "output"
        ["a.jpg", "b.jpg"] ["a.jpg", "b.jpg"] =
      ⟨["output/a_960x480_0x30_resized.jpg", "a.jpg", "b.jpg"],
        ["output/a_960x480_0x30_resized.jpg"], .fatalAfterCreate⟩ ∧
    processImages U
        ⟨fun _ => some ⟨1920, 960⟩, fun _ => none, fun _ => true,
          fun x => x != "output/a_960x480_0x30_resized.jpg"⟩
        ⟨false, "StevenPigeon", 9 / 10, false, false, false, 80⟩ "output"
        ["a.jpg", "b.jpg"] ["output/a_960x480_0x30_resized.jpg", "a.jpg", "b.jpg"] =
      ⟨["output/b_960x480_0x30_resized.jpg", "output/a_960x480_0x30_resized.jpg", "a.jpg",
          "b.jpg"],
        ["output/b_960x480_0x30_resized.jpg"], .returned⟩ := by
  have ea : extOf U "a.jpg" = some ".jpg" := by
    rw [extOf_ascii U "a.jpg" ".jpg" (by decide) (by decide)]; decide
  have eb : extOf U "b.jpg" = some ".jpg" := by
    rw [extOf_ascii U "b.jpg" ".jpg" (by decide) (by decide)]; decide
  have hp := prepare_plain U "StevenPigeon" (9 / 10) false 80 1920 960 (by decide)
  have a1 := processFile_reached U
    ⟨fun _ => some ⟨1920, 960⟩, fun _ => none, fun _ => true,
      fun x => x != "output/a_960x480_0x30_resized.jpg"⟩
    ⟨false, "StevenPigeon", 9 / 10, false, false, false, 80⟩ "output"
    ["a.jpg", "b.jpg"] "a.jpg" ".jpg" ⟨1920, 960⟩ ⟨1920, 960⟩ ea (by decide) (by decide)
    (by decide) hp
  have a2 := processFile_reached U
    ⟨fun _ => some ⟨1920, 960⟩, fun _ => none, fun _ => true,
      fun x => x != "output/a_960x480_0x30_resized.jpg"⟩
    ⟨false, "StevenPigeon", 9 / 10, false, false, false, 80⟩ "output"
    ["output/a_960x480_0x30_resized.jpg", "a.jpg", "b.jpg"] "a.jpg" ".jpg" ⟨1920, 960⟩
    ⟨1920, 960⟩ ea (by decide) (by decide) (by decide) hp
  have b2 := processFile_reached U
    ⟨fun _ => some ⟨1920, 960⟩, fun _ => none, fun _ => true,
      fun x => x != "output/a_960x480_0x30_resized.jpg"⟩
    ⟨false, "StevenPigeon", 9 / 10, false, false, false, 80⟩ "output"
    ["output/a_960x480_0x30_resized.jpg", "a.jpg", "b.jpg"] "b.jpg" ".jpg" ⟨1920, 960⟩
    ⟨1920, 960⟩ eb (by decide) (by decide) (by decide) hp
  rw [CalculateDimensions_1920_960] at a1 a2 b2
  rw [show outpathOf "output" (baseNameOf false "StevenPigeon" "a.jpg" ".jpg") ⟨960, 480⟩ =
    "output/a_960x480_0x30_resized.jpg" from by decide] at a1 a2
  rw [show outpathOf "output" (baseNameOf false "StevenPigeon" "b.jpg" ".jpg") ⟨960, 480⟩ =
    "output/b_960x480_0x30_resized.jpg" from by decide] at b2
  have a1' : processFile U
      ⟨fun _ => some ⟨1920, 960⟩, fun _ => none, fun _ => true,
        fun x => x != "output/a_960x480_0x30_resized.jpg"⟩
      ⟨false, "StevenPigeon", 9 / 10, false, false, false, 80⟩ "output"
      ["a.jpg", "b.jpg"] "a.jpg" = .encodeFailed "output/a_960x480_0x30_resized.jpg" := by
    rw [a1]; decide
  have a2' : processFile U
      ⟨fun _ => some ⟨1920, 960⟩, fun _ => none, fun _ => true,
        fun x => x != "output/a_960x480_0x30_resized.jpg"⟩
      ⟨false, "StevenPigeon", 9 / 10, false, false, false, 80⟩ "output"
      ["output/a_960x480_0x30_resized.jpg", "a.jpg", "b.jpg"] "a.jpg" =
        .skipped "output/a_960x480_0x30_resized.jpg" := by
    rw [a2]; decide
  have b2' : processFile U
      ⟨fun _ => some ⟨1920, 960⟩, fun _ => none, fun _ => true,
        fun x => x != "output/a_960x480_0x30_resized.jpg"⟩
      ⟨false, "StevenPigeon", 9 / 10, false, false, false, 80⟩ "output"
      ["output/a_960x480_0x30_resized.jpg", "a.jpg", "b.jpg"] "b.jpg" =
        .created "output/b_960x480_0x30_resized.jpg" := by
    rw [b2]; decide
  constructor
  · simp only [processImages, a1']
  · simp only [processImages, a2', b2', List.nil_append]

/-- The scenario of the spec: `my_photo.jpg` decodes to 1920x960, dithering
with Atkinson is on, `notes.txt` follows in the match list; the call creates
the one output and returns. -/
theorem spec_scenario_run (U : CaseTable) :
    processImages U
        ⟨fun _ => some ⟨1920, 960⟩, fun _ => none, fun _ => true, fun _ => true⟩
        ⟨true, "Atkinson", 9 / 10, false, false, false, 80⟩ "output"
        ["my_photo.jpg", "notes.txt"] ["my_photo.jpg"] =
      ⟨["output/my-photo-Atkinson_960x480_0x30_resized.jpg", "my_photo.jpg"],
        ["output/my-photo-Atkinson_960x480_0x30_resized.jpg"], .returned⟩ := by
  have ha : extOf U "my_photo.jpg" = some ".jpg" := by
    rw [extOf_ascii U "my_photo.jpg" ".jpg" (by decide) (by decide)]; decide
  have hn : extOf U "notes.txt" = some ".txt" := by
    rw [extOf_ascii U "notes.txt" ".txt" (by decide) (by decide)]; decide
  have hb : prepare U ⟨true, "Atkinson", 9 / 10, false, false, false, 80⟩ ⟨1920, 960⟩ =
      some ⟨1920, 960⟩ := prepare_dithered U .Atkinson (9 / 10) false 80 1920 960 (by decide)
  have p1 : processFile U
      ⟨fun _ => some ⟨1920, 960⟩, fun _ => none, fun _ => true, fun _ => true⟩
      ⟨true, "Atkinson", 9 / 10, false, false, false, 80⟩ "output" ["my_photo.jpg"]
      "my_photo.jpg" = .created "output/my-photo-Atkinson_960x480_0x30_resized.jpg" := by
    rw [processFile_reached U _ _ _ _ _ ".jpg" ⟨1920, 960⟩ ⟨1920, 960⟩ ha
      (by decide) (by decide) (by decide) hb, CalculateDimensions_1920_960]
    decide
  have p2 : processFile U
      ⟨fun _ => some ⟨1920, 960⟩, fun _ => none, fun _ => true, fun _ => true⟩
      ⟨true, "Atkinson", 9 / 10, false, false, false, 80⟩ "output"
      ["output/my-photo-Atkinson_960x480_0x30_resized.jpg", "my_photo.jpg"]
      "notes.txt" = .unsupported := by
    unfold processFile
    rw [hn]
    simp only [show supported ".txt" = false from by decide, if_true]
  simp only [processImages, p1, p2, List.nil_append]

/-! ## The claims on `processImages` -/

/-- C7: for a decoded image of positive size, the size that reaches the
orientation step is positive; the size that `prepare` hands to
`CalculateDimensions` is that size with width and height exchanged when it is
higher than wide and unchanged otherwise, so its width is at least its
height, and so is the width of the size planned from it; and every output
path of `processFile` is built from the size planned from what `prepare`
hands over. -/
theorem orientation_long_edge_horizontal (U : CaseTable) (o : Options) (img : Point)
    (hX : 0 < img.X) (hY : 0 < img.Y) :
    (0 < (forced o img).X ∧ 0 < (forced o img).Y) ∧
    (∀ p, prepare U o img = some p →
      p = (if (forced o img).Y > (forced o img).X
        then ⟨(forced o img).Y, (forced o img).X⟩
        else ⟨(forced o img).X, (forced o img).Y⟩) ∧
      p.Y ≤ p.X ∧
      (CalculateDimensions p 960 540).Y ≤ (CalculateDimensions p 960 540).X) ∧
    (∀ (env : Env) (outdir : String) (files : List String) (filepath x : String),
      (processFile U env o outdir files filepath = .created x ∨
        processFile U env o outdir files filepath = .skipped x ∨
        processFile U env o outdir files filepath = .encodeFailed x) →
      ∃ ext decoded p, extOf U filepath = some ext ∧
        (if ext = ".jpg" ∨ ext = ".jpeg" then env.jpegDecode filepath
          else env.pngDecode filepath) = some decoded ∧
        prepare U o decoded = some p ∧
        x = outpathOf outdir (baseNameOf o.dither o.ditherAlg filepath ext)
          (CalculateDimensions p 960 540)) := by
  have hpos : 0 < (forced o img).X ∧ 0 < (forced o img).Y := by
    unfold forced CropCenter Rotate90
    by_cases hr : o.rotate = true <;> by_cases hc : o.crop = true <;>
      simp only [hr, hc, if_true, if_false, Bool.false_eq_true] <;>
      constructor <;> first | assumption | (apply lt_min <;> first | assumption | decide)
  refine ⟨hpos, ?_, ?_⟩
  · intro p hp
    have hpe : p = orient (forced o img) := by
      unfold prepare at hp
      split at hp
      · simp at hp
      · rename_i q hq
        have hq' : q = img := by
          by_cases hd : o.dither = true
          · simp only [hd, if_true, Ditherer.Dither] at hq
            split_ifs at hq
            injection hq with hq; exact hq.symm
          · simp only [hd, if_false, Bool.false_eq_true] at hq
            injection hq with hq; exact hq.symm
        rw [hq'] at hp
        injection hp with hp; exact hp.symm
    have horient : p = (if (forced o img).Y > (forced o img).X
        then ⟨(forced o img).Y, (forced o img).X⟩
        else ⟨(forced o img).X, (forced o img).Y⟩) := by
      rw [hpe]; unfold orient Rotate90; rfl
    have hland : p.Y ≤ p.X ∧ 0 < p.Y := by
      rw [horient]
      by_cases hh : (forced o img).Y > (forced o img).X
      · simp only [hh, if_true]; exact ⟨hh.le, hpos.1⟩
      · simp only [hh, if_false]; exact ⟨not_lt.mp hh, hpos.2⟩
    exact ⟨horient, hland.1, CalculateDimensions_canvas_landscape p.X p.Y hland.2 hland.1⟩
  · intro env outdir files filepath x h
    obtain ⟨ext, decoded, p, hext, -, -, himg, hprep, hx, -, -⟩ :=
      processFile_output U env o outdir files filepath x h
    exact ⟨ext, decoded, p, hext, himg, hprep, hx⟩

theorem orientation_long_edge_horizontal_witness :
    prepare CaseTable.ascii ⟨true, "Atkinson", 9 / 10, false, false, false, 80⟩ ⟨3000, 4000⟩ =
        some ⟨4000, 3000⟩ ∧
      (CalculateDimensions ⟨4000, 3000⟩ 960 540).Y ≤
        (CalculateDimensions ⟨4000, 3000⟩ 960 540).X := by
  have hp : prepare CaseTable.ascii ⟨true, "Atkinson", 9 / 10, false, false, false, 80⟩
      ⟨3000, 4000⟩ = some ⟨4000, 3000⟩ := by decide
  exact ⟨hp, ((orientation_long_edge_horizontal CaseTable.ascii
    ⟨true, "Atkinson", 9 / 10, false, false, false, 80⟩ ⟨3000, 4000⟩ (by decide)
    (by decide)).2.1 ⟨4000, 3000⟩ hp).2.2⟩

/-- C5, as the spec states it, fails: with `jpeg.Encode` failing on the
output of `a.jpg` after `os.Create` made the file, the first call on
`a.jpg`, `b.jpg` dies there, and the second call on the files it left writes
the output of `b.jpg`, whatever the case table. -/
theorem second_run_writes_after_failed_encode :
    ¬ ∃ U : CaseTable,
      (processImages U
        ⟨fun _ => some ⟨1920, 960⟩, fun _ => none, fun _ => true,
          fun x => x != "output/a_960x480_0x30_resized.jpg"⟩
        ⟨false, "StevenPigeon", 9 / 10, false, false, false, 80⟩ "output"
        ["a.jpg", "b.jpg"]
        (processImages U
          ⟨fun _ => some ⟨1920, 960⟩, fun _ => none, fun _ => true,
            fun x => x != "output/a_960x480_0x30_resized.jpg"⟩
          ⟨false, "StevenPigeon", 9 / 10, false, false, false, 80⟩ "output"
          ["a.jpg", "b.jpg"] ["a.jpg", "b.jpg"]).files).written = [] := by
  rintro ⟨U, h⟩
  obtain ⟨r1, r2⟩ := runs_after_failed_encode U
  rw [r1] at h
  simp only at h
  rw [r2] at h
  simp at h

/-- C5, amended: when the first call of `processImages` did not die in
`jpeg.Encode` after creating a file, a second call on the files it left
writes nothing, leaves the files unchanged and ends the same way; in every
case the first call keeps every file that existed, creates only paths that
did not exist, each once, at most one per match, and each created path is
`outpathOf` of the base name of a match and of the size planned for it. -/
theorem processImages_idempotent (U : CaseTable) (env : Env) (o : Options)
    (outdir : String) (paths files : List String) :
    ((processImages U env o outdir paths files).status ≠ .fatalAfterCreate →
      (processImages U env o outdir paths
          (processImages U env o outdir paths files).files).written = [] ∧
        (processImages U env o outdir paths
          (processImages U env o outdir paths files).files).files =
          (processImages U env o outdir paths files).files ∧
        (processImages U env o outdir paths
          (processImages U env o outdir paths files).files).status =
          (processImages U env o outdir paths files).status) ∧
      (processImages U env o outdir paths files).files =
        (processImages U env o outdir paths files).written ++ files ∧
      (∀ x ∈ (processImages U env o outdir paths files).written, x ∉ files) ∧
      (processImages U env o outdir paths files).written.Nodup ∧
      (processImages U env o outdir paths files).written.length ≤ paths.length ∧
      (∀ x ∈ (processImages U env o outdir paths files).written,
        ∃ filepath ∈ paths, ∃ ext img p, extOf U filepath = some ext ∧
          (if ext = ".jpg" ∨ ext = ".jpeg" then env.jpegDecode filepath
            else env.pngDecode filepath) = some img ∧
          prepare U o img = some p ∧
          x = outpathOf outdir (baseNameOf o.dither o.ditherAlg filepath ext)
            (CalculateDimensions p 960 540)) := by
  refine ⟨?_, processImages_written U env o outdir paths files⟩
  intro hst
  rw [processImages_again U env o outdir paths files hst]
  exact ⟨rfl, rfl, rfl⟩

/-- On the scenario of the spec (`my_photo.jpg`, 1920x960, dithering with
Atkinson) the first call writes the one expected file and the second none. -/
theorem processImages_idempotent_witness :
    (processImages CaseTable.ascii
        ⟨fun _ => some ⟨1920, 960⟩, fun _ => none, fun _ => true, fun _ => true⟩
        ⟨true, "Atkinson", 9 / 10, false, false, false, 80⟩ "output"
        ["my_photo.jpg", "notes.txt"] ["my_photo.jpg"]).written =
        ["output/my-photo-Atkinson_960x480_0x30_resized.jpg"] ∧
      (processImages CaseTable.ascii
        ⟨fun _ => some ⟨1920, 960⟩, fun _ => none, fun _ => true, fun _ => true⟩
        ⟨true, "Atkinson", 9 / 10, false, false, false, 80⟩ "output"
        ["my_photo.jpg", "notes.txt"]
        (processImages CaseTable.ascii
          ⟨fun _ => some ⟨1920, 960⟩, fun _ => none, fun _ => true, fun _ => true⟩
          ⟨true, "Atkinson", 9 / 10, false, false, false, 80⟩ "output"
          ["my_photo.jpg", "notes.txt"] ["my_photo.jpg"]).files).written = [] := by
  have e := spec_scenario_run CaseTable.ascii
  have hst : (processImages CaseTable.ascii
      ⟨fun _ => some ⟨1920, 960⟩, fun _ => none, fun _ => true, fun _ => true⟩
      ⟨true, "Atkinson", 9 / 10, false, false, false, 80⟩ "output"
      ["my_photo.jpg", "notes.txt"] ["my_photo.jpg"]).status ≠ .fatalAfterCreate := by
    rw [e]; exact fun h => Status.noConfusion h
  exact ⟨by rw [e], ((processImages_idempotent CaseTable.ascii
      ⟨fun _ => some ⟨1920, 960⟩, fun _ => none, fun _ => true, fun _ => true⟩
      ⟨true, "Atkinson", 9 / 10, false, false, false, 80⟩ "output"
      ["my_photo.jpg", "notes.txt"] ["my_photo.jpg"]).1 hst).1⟩

/-- C3, at a path with an upper-case extension: the lower-cased extension is
not a suffix of the path, `TrimSuffix` removes nothing, and `.JPG` stays in
the file name; with the extension in lower case the name is the expected one. -/
theorem uppercase_extension_stays_in_filename (U : CaseTable) :
    extOf U "my_photo.JPG" = some ".jpg" ∧ supported ".jpg" = true ∧
      TrimSuffix "my_photo.JPG" ".jpg" = "my_photo.JPG" ∧
      processFile U ⟨fun _ => some ⟨1920, 960⟩, fun _ => none, fun _ => true, fun _ => true⟩
          ⟨true, "Atkinson", 9 / 10, false, false, false, 80⟩ "output" ["my_photo.JPG"]
          "my_photo.JPG" =
        .created "output/my-photo.JPG-Atkinson_960x480_0x30_resized.jpg" ∧
      processFile U ⟨fun _ => some ⟨1920, 960⟩, fun _ => none, fun _ => true, fun _ => true⟩
          ⟨true, "Atkinson", 9 / 10, false, false, false, 80⟩ "output" ["my_photo.jpg"]
          "my_photo.jpg" =
        .created "output/my-photo-Atkinson_960x480_0x30_resized.jpg" := by
  have e1 : extOf U "my_photo.JPG" = some ".jpg" := by
    rw [extOf_ascii U "my_photo.JPG" ".JPG" (by decide) (by decide)]; decide
  have e2 : extOf U "my_photo.jpg" = some ".jpg" := by
    rw [extOf_ascii U "my_photo.jpg" ".jpg" (by decide) (by decide)]; decide
  have hp : prepare U ⟨true, "Atkinson", 9 / 10, false, false, false, 80⟩ ⟨1920, 960⟩ =
      some ⟨1920, 960⟩ := prepare_dithered U .Atkinson (9 / 10) false 80 1920 960 (by decide)
  refine ⟨e1, by decide, by decide, ?_, ?_⟩
  · rw [processFile_reached U _ _ _ _ _ ".jpg" ⟨1920, 960⟩ ⟨1920, 960⟩ e1 (by decide)
      (by decide) (by decide) hp, CalculateDimensions_1920_960]
    decide
  · rw [processFile_reached U _ _ _ _ _ ".jpg" ⟨1920, 960⟩ ⟨1920, 960⟩ e2 (by decide)
      (by decide) (by decide) hp, CalculateDimensions_1920_960]
    decide

/-- C4, at a path without a dot: `LastIndex` is `-1`, the slice expression
panics and the call ends there, whatever follows in the match list; a path
such as `notes.txt` is skipped and the call goes on with the next match. -/
theorem path_without_dot_panics (U : CaseTable) (env : Env) (o : Options) (outdir : String)
    (rest files : List String) :
    LastIndex "notes" '.' = -1 ∧ extOf U "notes" = none ∧
      processImages U env o outdir ("notes" :: rest) files = ⟨files, [], .panicked⟩ ∧
      processImages U env o outdir ("notes.txt" :: rest) files =
        processImages U env o outdir rest files := by
  have e1 : extOf U "notes" = none := extOf_none U "notes" (by decide)
  have e2 : extOf U "notes.txt" = some ".txt" := by
    rw [extOf_ascii U "notes.txt" ".txt" (by decide) (by decide)]; decide
  refine ⟨by decide, e1, ?_, ?_⟩
  · have hp : processFile U env o outdir files "notes" = .panicked := by
      unfold processFile
      rw [e1]
    simp only [processImages, hp]
  · have hp : processFile U env o outdir files "notes.txt" = .unsupported := by
      unfold processFile
      rw [e2]
      simp only [show supported ".txt" = false from by decide, if_true]
    simp only [processImages, hp]

end Inkcrop
